import Mathlib

/-!
Shallow embedding of the iterative schema-linking engine of `src/agents/schema.py`
and of the probe services of `src/infra/db.py`, with proofs of the specified
properties (termination/forced-stop discipline, fail-safe parsing, monotonic
growth, dedup invariants, column resolution, feedback floor, probe safety).

Modelling conventions:
* Python `dict`s with insertion order are modelled as association lists
  (`List (key × value)`), appended in insertion order.
* The LLM gateway together with JSON decoding is modelled as a function
  `Nat → Option (List Action)`: `none` stands for a raw response that fails to
  decode as JSON or decodes to a non-list value; `some acts` stands for a
  response decoding to the JSON list `acts`.  A JSON action object is an
  `Action` record whose fields are `Option`s (a missing key is `none`).
* Python exceptions escaping `SchemaAgent.run` (e.g. the `KeyError` raised by
  `action["type"]` on an action object with no `"type"` key) are modelled by
  `Except String`.
* `row_limit` is modelled as `Nat` (a row count); list slicing `xs[:k]` becomes
  `List.take k xs`.
-/

namespace NL2SQL

/-- Column record returned by vector search (`ColumnSnippet` in
`src/infra/vector_store.py`). -/
structure ColumnSnippet where
  table : String
  name : String
  type : String := "TEXT"
  description : String := ""
  is_pk : Bool := false
  is_fk : Bool := false
  sample_values : List String := []
deriving DecidableEq, Repr

/-- Model of `ColumnSnippet.id`: the identity `table + "." + name` used for
deduplication and exclusion lists. -/
def ColumnSnippet.id (c : ColumnSnippet) : String :=
  c.table ++ "." ++ c.name

/-- Model of `TableSchema` from `src/agents/schema.py`: a table with its linked columns. -/
structure TableSchema where
  table : String
  columns : List ColumnSnippet := []
deriving DecidableEq, Repr

/-- A scalar summary value (string or number) appearing in probe summaries. -/
inductive SVal where
  | s (v : String)
  | n (v : Nat)
deriving DecidableEq, Repr

/-- A probe summary dict (`ProbeResult.summary` in `src/infra/db.py`). -/
def Summary := List (String × SVal)
deriving DecidableEq, Repr

/-- A returned sample row, rendered as field-name/printed-value pairs. -/
def SampleRow := List (String × String)
deriving DecidableEq, Repr

/-- Model of `ProbeResult` from `src/infra/db.py`. -/
structure ProbeResult where
  status : String
  row_count : Nat := 0
  sample_rows : List SampleRow := []
  error_type : Option String := none
  error_message_short : Option String := none
  summary : Summary := []
deriving DecidableEq, Repr

/-- An action object decoded from the model's JSON output.  Each field models
the presence/absence of the corresponding JSON key (`action.get(...)` in
`src/agents/schema.py`). -/
structure Action where
  type : Option String := none
  query : Option String := none
  top_k : Option Nat := none
  sql : Option String := none
  columns : Option (List String) := none
deriving DecidableEq, Repr

/-- An observation dict produced by `SchemaAgent._dispatch_action` or by the
feedback-floor warning branch of `SchemaAgent.run`. -/
inductive Observation where
  | retrieve (query : String) (returned : List String)
  | explore (status : String) (summary : Summary)
  | verify (status : String) (error : Option String) (message : Option String)
  | add (added : List String)
  | stop
  | unknown (detail : Action)
  | warning (warning detail : String)
deriving DecidableEq, Repr, Inhabited

/-- Model of `TraceStep` from `src/agents/schema.py`. -/
structure TraceStep where
  step : Nat
  llm_actions : List Action
  observations : List Observation
  forced_stop : Bool := false
deriving DecidableEq, Repr

/-- Model of `SchemaAgentConfig` from `src/agents/schema.py`. -/
structure SchemaAgentConfig where
  initial_top_m : Nat := 80
  retrieve_top_k : Nat := 5
  max_steps : Nat := 8
  prompt_token_budget : Nat := 4000
  min_feedback_actions_per_step : Nat := 1
  enable_verify_schema : Bool := true
  enable_explore_schema : Bool := true
deriving Repr

/-- Model of `SchemaAgentState` from `src/agents/schema.py`.  `linked_schema` is the
insertion-ordered dict `table → TableSchema`; `seen_columns` is the set of seen
identities (modelled as a list used only through membership);
`retrieve_cache` is the insertion-ordered dict of cached retrieval results. -/
structure SchemaAgentState where
  db_id : String
  user_query : String
  table_list : List String
  linked_schema : List TableSchema
  seen_columns : List String
  retrieve_cache : List (String × List ColumnSnippet)
  trace : List TraceStep
  step : Nat := 0
deriving Repr, Inhabited

/-- The serialized column dict written into the shared context
(`SchemaAgent._serialize_linked_schema`). -/
structure SerColumn where
  name : String
  type : String
  role : String
  description : String
  sample_values : List String
deriving DecidableEq, Repr

/-- The slice of `QueryContext.schema_state` the engine writes
(`ctx.schema_state` keys `table_list`, `linked_schema`, `linking_trace`). -/
structure SchemaStateCtx where
  table_list : List String
  linked_schema : List (String × List SerColumn)
  linking_trace : Option (List TraceStep) := none
deriving Repr, Inhabited

/-- The tool dependencies of the agent: the vector store's `search_columns`
(arguments: db id, query, exclusion list, top-k), the db service's
`exec_probe` (db id, sql — the agent always uses the default row limit), and
the gateway+JSON-decode composite, indexed by the step at which `_call_llm`
is invoked. -/
structure Services where
  searchColumns : String → String → List String → Nat → List ColumnSnippet
  execProbe : String → String → ProbeResult
  llmResponse : Nat → Option (List Action)

/-- Model of `build_schema_from_columns`'s per-column operation:
`tables.setdefault(col.table, TableSchema(table=col.table))` followed by an
unconditional `columns.append(col)`. -/
def insertColIntoTables : List TableSchema → ColumnSnippet → List TableSchema
  | [], col => [{ table := col.table, columns := [col] }]
  | ts :: rest, col =>
    if ts.table = col.table then
      { ts with columns := ts.columns ++ [col] } :: rest
    else
      ts :: insertColIntoTables rest col

/-- Model of `build_schema_from_columns` from `src/agents/schema.py`. -/
def build_schema_from_columns (cols : List ColumnSnippet) : List TableSchema :=
  cols.foldl insertColIntoTables []

/-- Model of `SchemaAgent._merge_schema`'s per-column operation: `setdefault` followed
by append-if-absent-by-identity. -/
def mergeColIntoTables : List TableSchema → ColumnSnippet → List TableSchema
  | [], col => [{ table := col.table, columns := [col] }]
  | ts :: rest, col =>
    if ts.table = col.table then
      (if (ts.columns.map ColumnSnippet.id).contains col.id then ts
       else { ts with columns := ts.columns ++ [col] }) :: rest
    else
      ts :: mergeColIntoTables rest col

/-- Model of `SchemaAgent._merge_schema` from `src/agents/schema.py`. -/
def mergeSchema (linked : List TableSchema) (cols : List ColumnSnippet) :
    List TableSchema :=
  cols.foldl mergeColIntoTables linked

/-- Dict lookup on the linked schema (first entry with the given table name;
entries have pairwise-distinct tables in every reachable state). -/
def findTable (tables : List TableSchema) (t : String) : Option TableSchema :=
  tables.find? (fun ts => ts.table = t)

/-- The columns currently linked for table `t` (empty if absent). -/
def colsOf (tables : List TableSchema) (t : String) : List ColumnSnippet :=
  ((findTable tables t).map TableSchema.columns).getD []

/-- Model of `col_name.partition(".")` of Python, keeping the pieces the code uses:
the part before the first `.` and the part after it (`""` if there is no dot). -/
def partitionDot (s : String) : String × String :=
  let pre := s.takeWhile (fun c => c ≠ '.')
  if pre.length = s.length then (s, "") else (pre, s.drop (pre.length + 1))

/-- The fallback retrieval query `f"{table} {column}"` built in
`SchemaAgent._resolve_columns`. -/
def fallbackQuery (colName : String) : String :=
  (partitionDot colName).1 ++ " " ++ (partitionDot colName).2

/-- Model of `[c for cols in state.retrieve_cache.values() for c in cols]`. -/
def cacheValues (cache : List (String × List ColumnSnippet)) :
    List ColumnSnippet :=
  (cache.map Prod.snd).flatten

/-- Model of `cache_index = {c.id: c for c in cache_values}` followed by lookup: the
dict comprehension keeps the LAST snippet with a given id. -/
def cacheLookup (cache : List (String × List ColumnSnippet)) (n : String) :
    Option ColumnSnippet :=
  (cacheValues cache).reverse.find? (fun c => c.id = n)

/-- Model of `SchemaAgent._resolve_columns`: resolve from cache by exact identity,
else fall back to a top-1 retrieval excluding every seen identity; unresolved
names contribute nothing. -/
def resolveColumns (svc : Services) (st : SchemaAgentState)
    (colNames : List String) : List ColumnSnippet :=
  colNames.foldl
    (fun resolved n =>
      match cacheLookup st.retrieve_cache n with
      | some c => resolved ++ [c]
      | none =>
        match svc.searchColumns st.db_id (fallbackQuery n) st.seen_columns 1 with
        | hit :: _ => resolved ++ [hit]
        | [] => resolved)
    []

/-- Model of `SchemaAgent._serialize_linked_schema` on one column. -/
def serializeColumn (c : ColumnSnippet) : SerColumn :=
  { name := c.name
    type := c.type
    role := if c.is_pk then "pk" else if c.is_fk then "fk" else "col"
    description := c.description
    sample_values := c.sample_values.take 3 }

/-- Model of `SchemaAgent._serialize_linked_schema`. -/
def serializeLinkedSchema (tables : List TableSchema) :
    List (String × List SerColumn) :=
  tables.map (fun ts => (ts.table, ts.columns.map serializeColumn))

/-- Model of `SchemaAgent._serialize_trace`: builds fresh records copying each step's
current `forced_stop` value (so later mutation of the internal trace does not
affect an already-serialized trace). -/
def serializeTrace (trace : List TraceStep) : List TraceStep :=
  trace.map (fun t =>
    { step := t.step, llm_actions := t.llm_actions
      observations := t.observations, forced_stop := t.forced_stop })

/-- Adding one identity to the `seen_columns` set (`set.add`): membership
semantics, insertion-ordered. -/
def addSeen (s : List String) (i : String) : List String :=
  if s.contains i then s else s ++ [i]

/-- Model of `SchemaAgent._dispatch_action`: execute one action against the current
state, producing an observation and the updated state.  The dispatch itself is
total: every unrecognized (or key-less) action object falls through to the
`unknown` branch. -/
def dispatchAction (cfg : SchemaAgentConfig) (svc : Services) (a : Action)
    (st : SchemaAgentState) : Option Observation × SchemaAgentState :=
  if a.type = some "retrieve_schema" then
    let query := a.query.getD st.user_query
    let topK := a.top_k.getD cfg.retrieve_top_k
    let cols := svc.searchColumns st.db_id query st.seen_columns topK
    let cacheKey :=
      "step-" ++ toString st.step ++ "-" ++ toString st.retrieve_cache.length
    (some (.retrieve query (cols.map ColumnSnippet.id)),
     { st with retrieve_cache := st.retrieve_cache ++ [(cacheKey, cols)] })
  else if a.type = some "explore_schema" ∧ cfg.enable_explore_schema then
    let probe := svc.execProbe st.db_id (a.sql.getD "")
    (some (.explore probe.status probe.summary), st)
  else if a.type = some "verify_schema" ∧ cfg.enable_verify_schema then
    let probe := svc.execProbe st.db_id (a.sql.getD "")
    (some (.verify probe.status probe.error_type probe.error_message_short), st)
  else if a.type = some "add_schema" then
    let colsToAdd := resolveColumns svc st (a.columns.getD [])
    (some (.add (colsToAdd.map ColumnSnippet.id)),
     { st with
        linked_schema := mergeSchema st.linked_schema colsToAdd
        seen_columns :=
          (colsToAdd.map ColumnSnippet.id).foldl addSeen st.seen_columns })
  else if a.type = some "stop_action" then
    (some .stop, st)
  else
    (some (.unknown a), st)

/-- Is this action type counted as a feedback action by the loop body
(`action["type"] in {"retrieve_schema", "explore_schema", "verify_schema"}`)? -/
def isFeedbackType (t : String) : Bool :=
  t = "retrieve_schema" || t = "explore_schema" || t = "verify_schema"

/-- The per-step action loop of `SchemaAgent.run` (lines 126–131): dispatch
each action in order, collect observations, and count feedback actions.
Accessing `action["type"]` on an action object without a `"type"` key raises a
`KeyError`, modelled as `Except.error`. -/
def processActions (cfg : SchemaAgentConfig) (svc : Services) :
    List Action → SchemaAgentState →
    Except String (List Observation × Nat × SchemaAgentState)
  | [], st => .ok ([], 0, st)
  | a :: rest, st =>
    let r := dispatchAction cfg svc a st
    match a.type with
    | none => .error "KeyError: type"
    | some t =>
      match processActions cfg svc rest r.2 with
      | .error e => .error e
      | .ok (obsRest, fbRest, st2) =>
        .ok (r.1.toList ++ obsRest,
             (if isFeedbackType t then 1 else 0) + fbRest, st2)

/-- Model of `SchemaAgent._call_llm` after the gateway: a response that decodes to a
JSON list yields that list; any other response (non-JSON, or JSON that is not
a list) is replaced by the single synthetic stop action. -/
def callLLM (resp : Option (List Action)) : List Action :=
  match resp with
  | some acts => acts
  | none => [{ type := some "stop_action" }]

/-- The warning observation appended when a step has too few feedback actions. -/
def warningObservation : Observation :=
  .warning "no_feedback_action" "Add retrieve_schema/explore_schema/verify_schema"

/-- Does the action list contain a stop action
(`any(action["type"] == "stop_action" for action in actions)`)? -/
def hasStopAction (actions : List Action) : Bool :=
  actions.any (fun a => a.type = some "stop_action")

/-- The `while state.step < max_steps` loop of `SchemaAgent.run`, with
`fuel = max_steps - state.step` (the loop guard); each iteration either breaks
on a stop action or increments the step counter and recurses. -/
def runAux (cfg : SchemaAgentConfig) (svc : Services) :
    Nat → SchemaAgentState → SchemaStateCtx →
    Except String (SchemaStateCtx × SchemaAgentState)
  | 0, st, ctx => .ok (ctx, st)
  | fuel + 1, st, ctx =>
    let actions := callLLM (svc.llmResponse st.step)
    match processActions cfg svc actions st with
    | .error e => .error e
    | .ok (obs, fb, st1) =>
      let obs2 :=
        if fb < cfg.min_feedback_actions_per_step then obs ++ [warningObservation]
        else obs
      let st2 := { st1 with
        trace := st1.trace ++
          [{ step := st1.step, llm_actions := actions, observations := obs2 }] }
      let ctx2 := { ctx with
        linking_trace := some (serializeTrace st2.trace)
        linked_schema := serializeLinkedSchema st2.linked_schema }
      if hasStopAction actions then .ok (ctx2, st2)
      else runAux cfg svc fuel { st2 with step := st2.step + 1 } ctx2

/-- Model of `state.trace[-1].forced_stop = True` on a nonempty list. -/
def markLastForced : List TraceStep → List TraceStep
  | [] => []
  | [t] => [{ t with forced_stop := true }]
  | t :: rest => t :: markLastForced rest

/-- The state seeded by the initial wide retrieval at the top of
`SchemaAgent.run` (lines 105–114): the linked schema is grouped from the
seed columns and every seed identity is recorded as seen. -/
def seedState (cfg : SchemaAgentConfig) (svc : Services)
    (user_query db_id : String) (table_list : List String) : SchemaAgentState :=
  let initialCols := svc.searchColumns db_id user_query [] cfg.initial_top_m
  { db_id := db_id, user_query := user_query, table_list := table_list
    linked_schema := build_schema_from_columns initialCols
    seen_columns := (initialCols.map ColumnSnippet.id).foldl addSeen []
    retrieve_cache := [], trace := [] }

/-- The initial `ctx.schema_state` written at lines 115–118. -/
def seedCtx (cfg : SchemaAgentConfig) (svc : Services)
    (user_query db_id : String) (table_list : List String) : SchemaStateCtx :=
  { table_list := table_list
    linked_schema :=
      serializeLinkedSchema (seedState cfg svc user_query db_id table_list).linked_schema }

/-- Model of `SchemaAgent.run`: seed the linked schema by one wide retrieval, run the
bounded loop, then mark the last trace step as a forced stop when the step
counter exhausted the budget.  The context (already serialized per step) is
not touched by the final mark. -/
def runSchemaAgent (cfg : SchemaAgentConfig) (svc : Services)
    (user_query db_id : String) (table_list : List String) :
    Except String (SchemaStateCtx × SchemaAgentState) :=
  match runAux cfg svc cfg.max_steps (seedState cfg svc user_query db_id table_list)
      (seedCtx cfg svc user_query db_id table_list) with
  | .error e => .error e
  | .ok (ctx1, st1) =>
    if cfg.max_steps ≤ st1.step ∧ st1.trace ≠ [] then
      .ok (ctx1, { st1 with trace := markLastForced st1.trace })
    else
      .ok (ctx1, st1)

/-! ### Probe services (`src/infra/db.py`)

Python regexes are embedded as explicit character scans.  `\s` is modelled by
the ASCII whitespace characters (space, tab, newline, carriage return), which
covers every SQL text the claims quantify over. -/

/-- Substring test: does `pat` occur contiguously in `s`? -/
def hasSub (pat : List Char) : List Char → Bool
  | [] => pat.isEmpty
  | c :: rest => pat.isPrefixOf (c :: rest) || hasSub pat rest

/-- The two mock rows of `StubDBIntrospectionService.exec_probe`, with numeric
values rendered as literals (the engine never inspects them). -/
def stubRows : List SampleRow :=
  [[("order_id", "1"), ("total_amount", "100.0")],
   [("order_id", "2"), ("total_amount", "200.0")]]

/-- Model of `StubDBIntrospectionService.exec_probe`: `ok` with mock rows whenever the
lowercased SQL CONTAINS the substring `"select"`, otherwise an error. -/
def stubExecProbe (sql : String) (rowLimit : Nat) : ProbeResult :=
  if hasSub "select".data (sql.data.map Char.toLower) then
    { status := "ok", row_count := stubRows.length
      sample_rows := stubRows.take rowLimit
      summary := [("message", .s "stubbed select"), ("row_count", .n stubRows.length)] }
  else
    { status := "error", error_type := some "syntax"
      error_message_short := some "non-select probe rejected" }

/-- ASCII model of the regex class `\s`. -/
def isSpaceChar (c : Char) : Bool :=
  c = ' ' || c = '\t' || c = '\n' || c = '\r'

/-- Try to match the regex `from\s+([^\s;]+)` (IGNORECASE) at the head of the
character list, returning the capture group. -/
def matchFromAt (s : List Char) : Option (List Char) :=
  match s with
  | c1 :: c2 :: c3 :: c4 :: rest =>
    if c1.toLower = 'f' ∧ c2.toLower = 'r' ∧ c3.toLower = 'o' ∧ c4.toLower = 'm' then
      let spaces := rest.takeWhile isSpaceChar
      if spaces.isEmpty then none
      else
        let cap := (rest.drop spaces.length).takeWhile
          (fun c => !(isSpaceChar c) && c ≠ ';')
        if cap.isEmpty then none else some cap
    else none
  | _ => none

/-- Model of `re.search` for the same pattern: leftmost match wins. -/
def searchFrom : List Char → Option (List Char)
  | [] => none
  | c :: rest =>
    match matchFromAt (c :: rest) with
    | some cap => some cap
    | none => searchFrom rest

/-- Python `str.strip(ch)`: remove runs of `ch` from both ends. -/
def stripChar (ch : Char) (l : List Char) : List Char :=
  ((l.dropWhile (fun c => c = ch)).reverse.dropWhile (fun c => c = ch)).reverse

/-- Model of `raw.split(".")[-1]`: the part after the last dot (the whole string if
there is no dot). -/
def lastDotComponent (l : List Char) : List Char :=
  (l.reverse.takeWhile (fun c => c ≠ '.')).reverse

/-- Model of `SpiderSnowDBIntrospectionService._extract_table` combined with the
falsiness check in `exec_probe`: the capture contains no whitespace or `;`,
so the `.strip()`/`.strip(";")` calls are no-ops; quotes are stripped, the
last dot-component taken, and an empty result is as falsy as no match. -/
def extractTable (sql : String) : Option String :=
  match searchFrom sql.data with
  | none => none
  | some cap =>
    let t := lastDotComponent (stripChar '\'' (stripChar '"' cap))
    if t.isEmpty then none else some (String.mk t)

/-- The table metadata JSON consumed by the Spider-snow probe
(`table_fullname` and `sample_rows` are the only fields `exec_probe` reads). -/
structure TableMeta where
  table_fullname : Option String := none
  sample_rows : List SampleRow := []
deriving Repr

/-- Model of `SpiderSnowDBIntrospectionService.exec_probe`.  The filesystem lookup
`_load_table_meta` (JSON files with case-variant names, plus its cache) is
abstracted as the function `meta : db_id → table → Option TableMeta`. -/
def snowExecProbe (meta : String → String → Option TableMeta)
    (db_id sql : String) (rowLimit : Nat) : ProbeResult :=
  match extractTable sql with
  | none =>
    { status := "error", error_type := some "unsupported"
      error_message_short := some "unsupported SQL pattern" }
  | some t =>
    match meta db_id t with
    | none =>
      { status := "error", error_type := some "missing_table"
        error_message_short := some ("table " ++ t ++ " not found") }
    | some m =>
      let limited := m.sample_rows.take rowLimit
      { status := "ok", row_count := limited.length, sample_rows := limited
        summary := [("message", .s "sample_rows"),
                    ("table", .s (m.table_fullname.getD t))] }

/-- The regex class `\w` (ASCII): letters, digits, underscore. -/
def isWordChar (c : Char) : Bool :=
  c.isAlphanum || c = '_'

/-- Model of `re.match(r"\s*select\b", sql, IGNORECASE)`. -/
def startsWithSelect (sql : String) : Bool :=
  let rest := sql.data.dropWhile isSpaceChar
  "select".data.isPrefixOf (rest.map Char.toLower) &&
    (match rest.drop 6 with
     | [] => true
     | c :: _ => !(isWordChar c))

/-- Does the word `w` (all word characters, lowercase) occur in `s` with a
word boundary on each side?  `prevIsWord` records whether the character just
before the current position is a word character. -/
def wordOccursAux (w : List Char) : Bool → List Char → Bool
  | _, [] => false
  | prevIsWord, c :: rest =>
    (!prevIsWord &&
      (w.isPrefixOf ((c :: rest).map Char.toLower) &&
        (match (c :: rest).drop w.length with
         | [] => true
         | d :: _ => !(isWordChar d)))) ||
    wordOccursAux w (isWordChar c) rest

/-- Model of `re.search(r"\b<w>\b", s, IGNORECASE)` for a fixed word `w`. -/
def wordOccurs (w : String) (s : String) : Bool :=
  wordOccursAux w.data false s.data

/-- The forbidden-keyword alternation of `SnowflakeProbeService._is_select`. -/
def forbiddenWords : List String :=
  ["insert", "update", "delete", "merge", "alter", "drop", "truncate", "create"]

/-- Model of `SnowflakeProbeService._is_select`: the statement must start with
`SELECT` and contain none of the forbidden keywords. -/
def isSelectStatement (sql : String) : Bool :=
  startsWithSelect sql && !(forbiddenWords.any (fun w => wordOccurs w sql))

/-- The pure admission gate at the head of `SnowflakeProbeService.exec_probe`
(lines 159–167): missing credentials or a non-SELECT statement produce an
error result before anything is executed; `none` means the probe proceeds to
the (network-backed, unmodelled) execution phase. -/
def snowflakeGateResult (haveCreds : Bool) (sql : String) : Option ProbeResult :=
  if !haveCreds then
    some { status := "error", error_type := some "credential"
           error_message_short := some "missing snowflake credentials" }
  else if !(isSelectStatement sql) then
    some { status := "error", error_type := some "forbidden"
           error_message_short := some "only SELECT probes allowed" }
  else none

/-! ### The stub vector store (`src/infra/vector_store.py`) and concrete
service instances used for witnesses and counterexamples. -/

/-- Model of `StubSchemaVectorStore.mock_schema`: the deterministic test schema. -/
def stubMockSchema (db_id : String) : List ColumnSnippet :=
  if db_id = "sales" then
    [{ table := "orders", name := "order_id", type := "INT", is_pk := true },
     { table := "orders", name := "customer_id", type := "INT", is_fk := true },
     { table := "orders", name := "order_date", type := "DATE" },
     { table := "orders", name := "total_amount", type := "NUMERIC" },
     { table := "customers", name := "customer_id", type := "INT", is_pk := true },
     { table := "customers", name := "country", type := "TEXT" }]
  else []

/-- Model of `StubSchemaVectorStore.search_columns`: filter out excluded identities,
then take the first `top_k`. -/
def stubSearchColumns (db_id : String) (_query : String)
    (exclude_cols : List String) (top_k : Nat) : List ColumnSnippet :=
  ((stubMockSchema db_id).filter (fun c => !(exclude_cols.contains c.id))).take top_k

/-- Spec-worded per-identifier resolution rule of `add_schema` (§4.2 of the
specification): exact identity match against the union of all cached retrieval
results; if not found, a fallback single-result retrieval with the
table/column name as query text. -/
def resolveOne (svc : Services) (st : SchemaAgentState) (n : String) :
    Option ColumnSnippet :=
  match cacheLookup st.retrieve_cache n with
  | some c => some c
  | none => (svc.searchColumns st.db_id (fallbackQuery n) st.seen_columns 1).head?

/-- Per-column predicate holding of every snippet a given search function can
return (used to carry facts from the vector store into the run invariant). -/
def svcProduces (svc : Services) (P : ColumnSnippet → Prop) : Prop :=
  ∀ db q ex k, ∀ c ∈ svc.searchColumns db q ex k, P c

/-- The vector store honors its exclusion list (both repository stores filter
`c.id not in exclude`). -/
def honorsExclude (svc : Services) : Prop :=
  ∀ db q ex k, ∀ c ∈ svc.searchColumns db q ex k, c.id ∉ ex

/-- A string without the identity separator `.`. -/
def dotFree (s : String) : Prop := '.' ∉ s.data

/-- Predicate on an observation: is it the synthetic feedback-floor warning? -/
def isWarningObs : Observation → Bool
  | .warning _ _ => true
  | _ => false

/-- A pair (table, column identity) is present in the linked schema. -/
def pairIn (tables : List TableSchema) (t i : String) : Prop :=
  i ∈ (colsOf tables t).map ColumnSnippet.id

/-- Every cached retrieval result satisfies `P`. -/
def cacheP (P : ColumnSnippet → Prop)
    (cache : List (String × List ColumnSnippet)) : Prop :=
  ∀ kv ∈ cache, ∀ c ∈ kv.2, P c

/-- Well-formedness of the linked schema: pairwise-distinct table keys, no
duplicate identity within a table, every stored column under its own table
name and satisfying `P`. -/
def linkedWF (P : ColumnSnippet → Prop) (tables : List TableSchema) : Prop :=
  (tables.map TableSchema.table).Nodup ∧
  ∀ t, ((colsOf tables t).map ColumnSnippet.id).Nodup ∧
    ∀ c ∈ colsOf tables t, c.table = t ∧ P c

/-- Generic services for concrete runs: stub store, stub probe. -/
def stubServices (resp : Nat → Option (List Action)) : Services :=
  { searchColumns := stubSearchColumns
    execProbe := fun _ sql => stubExecProbe sql 5
    llmResponse := resp }

/-- Gateway for the C3 failing input: the model answers with the JSON list
`[{}]`, a list whose only element has no `"type"` key. -/
def typelessGateway : Nat → Option (List Action) := fun _ => some [{}]

/-- A duplicated seed column for the C5 counterexample. -/
def dupColumn : ColumnSnippet := { table := "orders", name := "order_id", type := "INT" }

/-- Vector store returning the same column twice (the `search_columns`
contract promises an ordered list, not distinct identities). -/
def dupServices : Services :=
  { searchColumns := fun _ _ _ _ => [dupColumn, dupColumn]
    execProbe := fun _ sql => stubExecProbe sql 5
    llmResponse := fun _ => none }

/-- The linked schema produced by a 1-step run whose seed retrieval returned
a duplicated column. -/
def dupRunSchema : List TableSchema :=
  ((runSchemaAgent { max_steps := 1 } dupServices "q" "db" []).toOption.map
    (fun p => p.2.linked_schema)).getD []

/-- The same services with every undecodable gateway response replaced by the
literal JSON list `[{"type":"stop_action"}]` (used to state that the engine
behaves exactly as if it had received that response). -/
def stopFilled (svc : Services) : Services :=
  { svc with llmResponse := fun k => some (callLLM (svc.llmResponse k)) }

/-- Engine state for the concrete fallback-misresolution instance of C10:
empty cache, `orders.total_amount` already seen, stub store. -/
def c10State : SchemaAgentState :=
  { db_id := "sales", user_query := "q", table_list := []
    linked_schema := [], seen_columns := ["orders.total_amount"]
    retrieve_cache := [], trace := [] }

/-- A gateway that immediately emits a stop action. -/
def stopAtOnceServices : Services :=
  stubServices (fun _ => some [{ type := some "stop_action" }])

/-- A gateway that proposes one retrieval every step and never stops:
every run with it terminates by budget exhaustion. -/
def retrieveForeverServices : Services :=
  stubServices (fun _ => some [{ type := some "retrieve_schema" }])

/-- A gateway that proposes one `add_schema` request and never stops. -/
def addForeverServices : Services :=
  stubServices (fun _ =>
    some [{ type := some "add_schema", columns := some ["orders.total_amount"] }])

/-- The pair returned by a successful concrete run (for witnesses). -/
def runPair (cfg : SchemaAgentConfig) (svc : Services) (uq db : String)
    (tl : List String) : SchemaStateCtx × SchemaAgentState :=
  ((runSchemaAgent cfg svc uq db tl).toOption).getD default

/-- The trace record appended by one loop iteration of `SchemaAgent.run`
(line 136), including the feedback-floor warning when applicable. -/
def stepTraceRecord (cfg : SchemaAgentConfig) (actions : List Action)
    (obs : List Observation) (fb : Nat) (st1 : SchemaAgentState) : TraceStep :=
  { step := st1.step
    llm_actions := actions
    observations :=
      if fb < cfg.min_feedback_actions_per_step then obs ++ [warningObservation]
      else obs }

/-- The engine state at the end of one loop iteration (before the step
counter moves). -/
def afterStepState (cfg : SchemaAgentConfig) (actions : List Action)
    (obs : List Observation) (fb : Nat) (st1 : SchemaAgentState) :
    SchemaAgentState :=
  { st1 with trace := st1.trace ++ [stepTraceRecord cfg actions obs fb st1] }

/-- The shared context written at the end of one loop iteration
(lines 137–138). -/
def afterStepCtx (cfg : SchemaAgentConfig) (actions : List Action)
    (obs : List Observation) (fb : Nat) (st1 : SchemaAgentState)
    (ctx : SchemaStateCtx) : SchemaStateCtx :=
  { ctx with
    linking_trace :=
      some (serializeTrace (afterStepState cfg actions obs fb st1).trace)
    linked_schema :=
      serializeLinkedSchema (afterStepState cfg actions obs fb st1).linked_schema }

/-- The triple produced by a successful per-step action processing (for
witnesses). -/
def procTriple (cfg : SchemaAgentConfig) (svc : Services) (actions : List Action)
    (st : SchemaAgentState) : List Observation × Nat × SchemaAgentState :=
  ((processActions cfg svc actions st).toOption).getD default

/-- The single synthetic stop action substituted on a parse failure. -/
def stopOnlyAction : Action := { type := some "stop_action" }

/-! ## Lemmas: identities and linked-schema structure -/

lemma string_ext {a b : String} (h : a.data = b.data) : a = b := by
  cases a; cases b; exact congrArg String.mk h

lemma append_dot_inj (l1 r1 l2 r2 : List Char) (h1 : '.' ∉ l1) (h2 : '.' ∉ l2)
    (h : l1 ++ '.' :: r1 = l2 ++ '.' :: r2) : l1 = l2 := by
  induction l1 generalizing l2 with
  | nil =>
    cases l2 with
    | nil => rfl
    | cons y ys =>
      simp only [List.nil_append, List.cons_append, List.cons.injEq] at h
      exact absurd (h.1 ▸ List.mem_cons_self y ys) h2
  | cons x xs ih =>
    cases l2 with
    | nil =>
      simp only [List.nil_append, List.cons_append, List.cons.injEq] at h
      exact absurd (h.1.symm ▸ List.mem_cons_self x xs) h1
    | cons y ys =>
      simp only [List.cons_append, List.cons.injEq] at h
      have hx : '.' ∉ xs := fun hm => h1 (List.mem_cons_of_mem _ hm)
      have hy : '.' ∉ ys := fun hm => h2 (List.mem_cons_of_mem _ hm)
      rw [h.1, ih ys hx hy h.2]

lemma id_table_eq {c1 c2 : ColumnSnippet} (h : c1.id = c2.id)
    (h1 : dotFree c1.table) (h2 : dotFree c2.table) : c1.table = c2.table := by
  have hd := congrArg String.data h
  simp only [ColumnSnippet.id, String.data_append] at hd
  have hd2 : c1.table.data ++ '.' :: c1.name.data
      = c2.table.data ++ '.' :: c2.name.data := by
    simpa using hd
  exact string_ext (append_dot_inj _ _ _ _ h1 h2 hd2)

lemma findTable_cons (ts : TableSchema) (rest : List TableSchema) (t : String) :
    findTable (ts :: rest) t = if ts.table = t then some ts else findTable rest t := by
  by_cases h : ts.table = t <;>
    simp [findTable, List.find?_cons_of_pos, List.find?_cons_of_neg, h]

lemma colsOf_cons (ts : TableSchema) (rest : List TableSchema) (t : String) :
    colsOf (ts :: rest) t = if ts.table = t then ts.columns else colsOf rest t := by
  by_cases h : ts.table = t <;> simp [colsOf, findTable_cons, h]

lemma colsOf_nil (t : String) : colsOf [] t = [] := rfl

lemma insertCol_colsOf (tables : List TableSchema) (col : ColumnSnippet) (t : String) :
    colsOf (insertColIntoTables tables col) t =
      if t = col.table then colsOf tables t ++ [col] else colsOf tables t := by
  induction tables with
  | nil =>
    by_cases h : t = col.table <;>
      simp [insertColIntoTables, colsOf_cons, colsOf_nil, h, eq_comm]
  | cons ts rest ih =>
    by_cases h1 : ts.table = col.table
    · by_cases h2 : ts.table = t
      · simp [insertColIntoTables, h1, colsOf_cons, h2, h1 ▸ h2.symm]
      · have h3 : ¬ t = col.table := fun hc => h2 (h1.trans hc.symm)
        have h4 : ¬ col.table = t := fun hc => h3 hc.symm
        simp [insertColIntoTables, h1, colsOf_cons, h2, h3, h4]
    · by_cases h2 : ts.table = t
      · have h3 : ¬ t = col.table := fun hc => h1 (h2.trans hc)
        simp [insertColIntoTables, h1, colsOf_cons, h2, h3]
      · simp [insertColIntoTables, h1, colsOf_cons, h2, ih]

lemma mergeCol_colsOf (tables : List TableSchema) (col : ColumnSnippet) (t : String) :
    colsOf (mergeColIntoTables tables col) t =
      if t = col.table ∧ col.id ∉ (colsOf tables col.table).map ColumnSnippet.id
      then colsOf tables t ++ [col] else colsOf tables t := by
  induction tables with
  | nil =>
    by_cases h : t = col.table <;>
      simp [mergeColIntoTables, colsOf_cons, colsOf_nil, h, eq_comm]
  | cons ts rest ih =>
    by_cases h1 : ts.table = col.table
    · have hcols : colsOf (ts :: rest) col.table = ts.columns := by
        simp [colsOf_cons, h1]
      by_cases hmem : ∃ a ∈ ts.columns, a.id = col.id
      · have hmem2 : col.id ∈ (ts.columns.map ColumnSnippet.id) := by
          simpa using hmem
        by_cases h2 : ts.table = t <;>
          simp [mergeColIntoTables, h1, colsOf_cons, h2, hcols, hmem, hmem2]
      · have hmem2 : col.id ∉ (ts.columns.map ColumnSnippet.id) := by
          simpa using hmem
        by_cases h2 : ts.table = t
        · simp [mergeColIntoTables, h1, colsOf_cons, h2, hcols, hmem, hmem2,
            h1 ▸ h2.symm]
        · have h3 : ¬ t = col.table := fun hcon => h2 (h1.trans hcon.symm)
          have h4 : ¬ col.table = t := fun hc => h3 hc.symm
          simp [mergeColIntoTables, h1, colsOf_cons, h2, h3, h4, hmem]
    · have hcols : colsOf (ts :: rest) col.table = colsOf rest col.table := by
        simp [colsOf_cons, h1]
      by_cases h2 : ts.table = t
      · have h3 : ¬ t = col.table := fun hc => h1 (h2.trans hc)
        simp [mergeColIntoTables, h1, colsOf_cons, h2, h3]
      · simp [mergeColIntoTables, h1, colsOf_cons, h2, ih, hcols]

lemma insertCol_keys (tables : List TableSchema) (col : ColumnSnippet) :
    (insertColIntoTables tables col).map TableSchema.table =
      if col.table ∈ tables.map TableSchema.table then tables.map TableSchema.table
      else tables.map TableSchema.table ++ [col.table] := by
  induction tables with
  | nil => simp [insertColIntoTables]
  | cons ts rest ih =>
    by_cases h1 : ts.table = col.table
    · simp [insertColIntoTables, h1]
    · have h2 : ¬ col.table = ts.table := fun h => h1 h.symm
      by_cases hm : col.table ∈ List.map TableSchema.table rest
      · have hex : ∃ a ∈ rest, a.table = col.table := by simpa using hm
        simp [insertColIntoTables, h1, ih, h2, hm, hex]
      · have hex : ¬ ∃ a ∈ rest, a.table = col.table := by simpa using hm
        simp [insertColIntoTables, h1, ih, h2, hm, hex]

lemma mergeCol_keys (tables : List TableSchema) (col : ColumnSnippet) :
    (mergeColIntoTables tables col).map TableSchema.table =
      if col.table ∈ tables.map TableSchema.table then tables.map TableSchema.table
      else tables.map TableSchema.table ++ [col.table] := by
  induction tables with
  | nil => simp [mergeColIntoTables]
  | cons ts rest ih =>
    by_cases h1 : ts.table = col.table
    · by_cases hc : ∃ a ∈ ts.columns, a.id = col.id <;>
        simp [mergeColIntoTables, h1, hc]
    · have h2 : ¬ col.table = ts.table := fun h => h1 h.symm
      by_cases hm : col.table ∈ List.map TableSchema.table rest
      · have hex : ∃ a ∈ rest, a.table = col.table := by simpa using hm
        simp [mergeColIntoTables, h1, ih, h2, hm, hex]
      · have hex : ¬ ∃ a ∈ rest, a.table = col.table := by simpa using hm
        simp [mergeColIntoTables, h1, ih, h2, hm, hex]

lemma foldl_insert_colsOf (cols : List ColumnSnippet) (acc : List TableSchema)
    (t : String) :
    colsOf (cols.foldl insertColIntoTables acc) t =
      colsOf acc t ++ cols.filter (fun c => c.table = t) := by
  induction cols generalizing acc with
  | nil => simp
  | cons c cs ih =>
    rw [List.foldl_cons, ih, insertCol_colsOf]
    by_cases h : c.table = t
    · rw [if_pos h.symm, List.filter_cons_of_pos (by simpa using h),
        List.append_assoc, List.singleton_append]
    · rw [if_neg (fun hc => h hc.symm), List.filter_cons_of_neg (by simpa using h)]

lemma build_colsOf (cols : List ColumnSnippet) (t : String) :
    colsOf (build_schema_from_columns cols) t = cols.filter (fun c => c.table = t) := by
  rw [build_schema_from_columns, foldl_insert_colsOf, colsOf_nil, List.nil_append]

lemma foldl_insert_keysNodup (cols : List ColumnSnippet) (acc : List TableSchema)
    (h : (acc.map TableSchema.table).Nodup) :
    ((cols.foldl insertColIntoTables acc).map TableSchema.table).Nodup := by
  induction cols generalizing acc with
  | nil => simpa using h
  | cons c cs ih =>
    rw [List.foldl_cons]
    refine ih _ ?_
    rw [insertCol_keys]
    by_cases hm : c.table ∈ acc.map TableSchema.table
    · simpa [hm] using h
    · simp only [hm, if_neg, ite_false]
      exact List.Nodup.append h (List.nodup_singleton _)
        (by simpa [List.disjoint_singleton] using hm)

lemma foldl_merge_keysNodup (cols : List ColumnSnippet) (acc : List TableSchema)
    (h : (acc.map TableSchema.table).Nodup) :
    ((cols.foldl mergeColIntoTables acc).map TableSchema.table).Nodup := by
  induction cols generalizing acc with
  | nil => simpa using h
  | cons c cs ih =>
    rw [List.foldl_cons]
    refine ih _ ?_
    rw [mergeCol_keys]
    by_cases hm : c.table ∈ acc.map TableSchema.table
    · simpa [hm] using h
    · simp only [hm, if_neg, ite_false]
      exact List.Nodup.append h (List.nodup_singleton _)
        (by simpa [List.disjoint_singleton] using hm)

lemma merge_extra (cols : List ColumnSnippet) (sch : List TableSchema) (t : String) :
    ∃ extra,
      colsOf (mergeSchema sch cols) t = colsOf sch t ++ extra ∧
      ((extra.map ColumnSnippet.id).Nodup) ∧
      (∀ i ∈ extra.map ColumnSnippet.id, i ∉ (colsOf sch t).map ColumnSnippet.id) ∧
      (∀ c ∈ extra, c ∈ cols ∧ c.table = t) := by
  induction cols generalizing sch with
  | nil => exact ⟨[], by simp [mergeSchema], by simp, by simp, by simp⟩
  | cons c cs ih =>
    have hstep := mergeCol_colsOf sch c t
    obtain ⟨e2, he2, hnd2, hdisj2, hmem2⟩ := ih (mergeColIntoTables sch c)
    by_cases hcond : t = c.table ∧ c.id ∉ (colsOf sch c.table).map ColumnSnippet.id
    · refine ⟨[c] ++ e2, ?_, ?_, ?_, ?_⟩
      · rw [show mergeSchema sch (c :: cs) = mergeSchema (mergeColIntoTables sch c) cs
            from rfl, he2, hstep, if_pos hcond, List.append_assoc]
      · have hnotin : c.id ∉ e2.map ColumnSnippet.id := fun hmem => by
          have := hdisj2 c.id hmem
          rw [hstep, if_pos hcond] at this
          exact this (by simp)
        rw [List.singleton_append, List.map_cons, List.nodup_cons]
        exact ⟨hnotin, hnd2⟩
      · intro i hi
        rcases (by simpa using hi : i = c.id ∨ i ∈ e2.map ColumnSnippet.id) with h | h
        · exact h ▸ (hcond.1 ▸ hcond.2)
        · intro hmemold
          refine hdisj2 i h ?_
          rw [hstep, if_pos hcond]
          simp only [List.map_append, List.mem_append]
          exact Or.inl hmemold
      · intro x hx
        rcases (by simpa using hx : x = c ∨ x ∈ e2) with h | h
        · exact ⟨h ▸ List.mem_cons_self c cs, h ▸ hcond.1.symm⟩
        · exact ⟨List.mem_cons_of_mem _ (hmem2 x h).1, (hmem2 x h).2⟩
    · refine ⟨e2, ?_, hnd2, ?_, ?_⟩
      · rw [show mergeSchema sch (c :: cs) = mergeSchema (mergeColIntoTables sch c) cs
            from rfl, he2, hstep, if_neg hcond]
      · intro i hi
        have := hdisj2 i hi
        rw [hstep, if_neg hcond] at this
        exact this
      · intro x hx
        exact ⟨List.mem_cons_of_mem _ (hmem2 x hx).1, (hmem2 x hx).2⟩

lemma merge_pair_mono {sch : List TableSchema} {t i : String}
    (cols : List ColumnSnippet) (h : pairIn sch t i) :
    pairIn (mergeSchema sch cols) t i := by
  obtain ⟨extra, he, -, -, -⟩ := merge_extra cols sch t
  unfold pairIn at h ⊢
  rw [he]
  simp only [List.map_append, List.mem_append]
  exact Or.inl h

lemma mergeCol_pair_mono {sch : List TableSchema} {t i : String}
    (col : ColumnSnippet) (h : pairIn sch t i) :
    pairIn (mergeColIntoTables sch col) t i := by
  unfold pairIn at h ⊢
  rw [mergeCol_colsOf]
  split
  · simp only [List.map_append, List.mem_append]; exact Or.inl h
  · exact h

lemma foldl_merge_pair_mono {sch : List TableSchema} {t i : String}
    (cols : List ColumnSnippet) (h : pairIn sch t i) :
    pairIn (cols.foldl mergeColIntoTables sch) t i := by
  induction cols generalizing sch with
  | nil => exact h
  | cons c cs ih => exact ih (mergeCol_pair_mono c h)

lemma merge_mem {c : ColumnSnippet} (cols : List ColumnSnippet)
    (sch : List TableSchema) (h : c ∈ cols) :
    pairIn (mergeSchema sch cols) c.table c.id := by
  induction cols generalizing sch with
  | nil => cases h
  | cons x xs ih =>
    rcases List.mem_cons.mp h with rfl | hx
    · refine foldl_merge_pair_mono xs ?_
      unfold pairIn
      rw [mergeCol_colsOf]
      by_cases hcond : c.table = c.table ∧ c.id ∉ (colsOf sch c.table).map ColumnSnippet.id
      · rw [if_pos hcond]; simp
      · rw [if_neg hcond]
        have : ¬ c.id ∉ (colsOf sch c.table).map ColumnSnippet.id := fun hn =>
          hcond ⟨rfl, hn⟩
        exact not_not.mp this
    · exact ih (mergeColIntoTables sch x) hx

lemma mergeCol_WF {P : ColumnSnippet → Prop} {sch : List TableSchema}
    {col : ColumnSnippet} (hP : P col) (h : linkedWF P sch) :
    linkedWF P (mergeColIntoTables sch col) := by
  obtain ⟨hkeys, hcols⟩ := h
  refine ⟨?_, ?_⟩
  · rw [mergeCol_keys]
    by_cases hm : col.table ∈ sch.map TableSchema.table
    · simpa [hm] using hkeys
    · simp only [hm, if_neg, ite_false]
      exact List.Nodup.append hkeys (List.nodup_singleton _)
        (by simpa [List.disjoint_singleton] using hm)
  · intro t
    rw [mergeCol_colsOf]
    by_cases hcond : t = col.table ∧ col.id ∉ (colsOf sch col.table).map ColumnSnippet.id
    · rw [if_pos hcond]
      refine ⟨?_, ?_⟩
      · have hnd := (hcols t).1
        have hnotin : col.id ∉ (colsOf sch t).map ColumnSnippet.id :=
          hcond.1 ▸ hcond.2
        rw [List.map_append, List.map_cons, List.map_nil]
        exact List.Nodup.append hnd (List.nodup_singleton _)
          (by simpa [List.disjoint_singleton] using hnotin)
      · intro c hc
        rcases (by simpa using hc : c ∈ colsOf sch t ∨ c = col) with h | h
        · exact (hcols t).2 c h
        · exact ⟨h ▸ hcond.1.symm, h ▸ hP⟩
    · rw [if_neg hcond]; exact hcols t

lemma merge_WF {P : ColumnSnippet → Prop} {sch : List TableSchema}
    (cols : List ColumnSnippet) (hP : ∀ c ∈ cols, P c) (h : linkedWF P sch) :
    linkedWF P (mergeSchema sch cols) := by
  induction cols generalizing sch with
  | nil => exact h
  | cons c cs ih =>
    exact ih (fun x hx => hP x (List.mem_cons_of_mem _ hx))
      (mergeCol_WF (hP c (List.mem_cons_self c cs)) h)

lemma build_WF {P : ColumnSnippet → Prop} (cols : List ColumnSnippet)
    (hnd : (cols.map ColumnSnippet.id).Nodup) (hP : ∀ c ∈ cols, P c) :
    linkedWF P (build_schema_from_columns cols) := by
  refine ⟨?_, ?_⟩
  · exact foldl_insert_keysNodup cols [] (by simp)
  · intro t
    rw [build_colsOf]
    refine ⟨?_, ?_⟩
    · exact hnd.sublist (List.Sublist.map _ (List.filter_sublist cols))
    · intro c hc
      have := List.mem_filter.mp hc
      exact ⟨by simpa using this.2, hP c this.1⟩

lemma mem_colsOf : ∀ {tables : List TableSchema} {ts : TableSchema},
    (tables.map TableSchema.table).Nodup → ts ∈ tables →
    colsOf tables ts.table = ts.columns
  | [], _, _, hm => absurd hm (List.not_mem_nil _)
  | x :: xs, ts, hkeys, hm => by
    rcases List.mem_cons.mp hm with rfl | hx
    · simp [colsOf_cons]
    · have hne : x.table ≠ ts.table := by
        intro he
        have : x.table ∈ xs.map TableSchema.table :=
          he ▸ List.mem_map_of_mem TableSchema.table hx
        exact (List.nodup_cons.mp hkeys).1 this
      rw [colsOf_cons, if_neg hne]
      exact mem_colsOf (List.nodup_cons.mp hkeys).2 hx

/-! ## Lemmas: seen set, cache, column resolution -/

lemma addSeen_mem_old {s : List String} {i j : String} (h : i ∈ s) :
    i ∈ addSeen s j := by
  unfold addSeen
  split
  · exact h
  · exact List.mem_append_left _ h

lemma addSeen_mem_new (s : List String) (j : String) : j ∈ addSeen s j := by
  unfold addSeen
  split
  · next h => simpa using h
  · simp

lemma foldl_addSeen_mono {i : String} :
    ∀ (ids : List String) (s : List String), i ∈ s → i ∈ ids.foldl addSeen s
  | [], _, h => h
  | _ :: js, s, h => foldl_addSeen_mono js _ (addSeen_mem_old h)

lemma foldl_addSeen_mem {i : String} :
    ∀ (ids : List String) (s : List String), i ∈ ids → i ∈ ids.foldl addSeen s
  | [], _, h => absurd h (List.not_mem_nil _)
  | j :: js, s, h => by
    rcases List.mem_cons.mp h with rfl | hj
    · exact foldl_addSeen_mono js _ (addSeen_mem_new s i)
    · exact foldl_addSeen_mem js _ hj

lemma cacheValues_P {P : ColumnSnippet → Prop}
    {cache : List (String × List ColumnSnippet)} (h : cacheP P cache) :
    ∀ c ∈ cacheValues cache, P c := by
  intro c hc
  unfold cacheValues at hc
  obtain ⟨l, hl, hcl⟩ := List.mem_flatten.mp hc
  obtain ⟨kv, hkv, rfl⟩ := List.mem_map.mp hl
  exact h kv hkv c hcl

lemma cacheValues_append (cache : List (String × List ColumnSnippet))
    (kv : String × List ColumnSnippet) :
    cacheValues (cache ++ [kv]) = cacheValues cache ++ kv.2 := by
  simp [cacheValues]

lemma cacheLookup_some {cache : List (String × List ColumnSnippet)}
    {n : String} {c : ColumnSnippet} (h : cacheLookup cache n = some c) :
    c ∈ cacheValues cache ∧ c.id = n := by
  unfold cacheLookup at h
  refine ⟨List.mem_reverse.mp (List.mem_of_find?_eq_some h), ?_⟩
  have := List.find?_some h
  simpa using this

lemma resolveColumns_aux (svc : Services) (st : SchemaAgentState) :
    ∀ (names : List String) (acc : List ColumnSnippet),
      names.foldl
        (fun resolved n =>
          match cacheLookup st.retrieve_cache n with
          | some c => resolved ++ [c]
          | none =>
            match svc.searchColumns st.db_id (fallbackQuery n) st.seen_columns 1 with
            | hit :: _ => resolved ++ [hit]
            | [] => resolved) acc
      = acc ++ names.filterMap (resolveOne svc st)
  | [], acc => by simp
  | n :: ns, acc => by
    simp only [List.foldl_cons]
    cases hcl : cacheLookup st.retrieve_cache n with
    | some c =>
      show List.foldl _ (acc ++ [c]) ns = acc ++ List.filterMap (resolveOne svc st) (n :: ns)
      rw [resolveColumns_aux svc st ns (acc ++ [c])]
      simp [resolveOne, hcl, List.filterMap_cons]
    | none =>
      cases hf : svc.searchColumns st.db_id (fallbackQuery n) st.seen_columns 1 with
      | nil =>
        show List.foldl _ acc ns = acc ++ List.filterMap (resolveOne svc st) (n :: ns)
        rw [resolveColumns_aux svc st ns acc]
        simp [resolveOne, hcl, hf, List.filterMap_cons]
      | cons hit rest =>
        show List.foldl _ (acc ++ [hit]) ns = acc ++ List.filterMap (resolveOne svc st) (n :: ns)
        rw [resolveColumns_aux svc st ns (acc ++ [hit])]
        simp [resolveOne, hcl, hf, List.filterMap_cons]

lemma resolveColumns_eq (svc : Services) (st : SchemaAgentState)
    (names : List String) :
    resolveColumns svc st names = names.filterMap (resolveOne svc st) := by
  rw [resolveColumns, resolveColumns_aux svc st names [], List.nil_append]

lemma resolveOne_cases {svc : Services} {st : SchemaAgentState} {n : String}
    {c : ColumnSnippet} (h : resolveOne svc st n = some c) :
    (c ∈ cacheValues st.retrieve_cache ∧ c.id = n) ∨
      c ∈ svc.searchColumns st.db_id (fallbackQuery n) st.seen_columns 1 := by
  unfold resolveOne at h
  cases hcl : cacheLookup st.retrieve_cache n with
  | some x =>
    rw [hcl] at h
    cases h
    exact Or.inl (cacheLookup_some hcl)
  | none =>
    rw [hcl] at h
    cases hf : svc.searchColumns st.db_id (fallbackQuery n) st.seen_columns 1 with
    | nil => rw [hf] at h; cases h
    | cons hit rest =>
      rw [hf] at h
      simp only [List.head?_cons, Option.some.injEq] at h
      subst h
      exact Or.inr (hf ▸ List.mem_cons_self hit rest)

lemma resolve_P {P : ColumnSnippet → Prop} {svc : Services}
    {st : SchemaAgentState} (hc : cacheP P st.retrieve_cache)
    (hs : svcProduces svc P) (names : List String) :
    ∀ c ∈ resolveColumns svc st names, P c := by
  intro c hmem
  rw [resolveColumns_eq] at hmem
  obtain ⟨n, -, hr⟩ := List.mem_filterMap.mp hmem
  rcases resolveOne_cases hr with ⟨hcv, -⟩ | hsvc
  · exact cacheValues_P hc c hcv
  · exact hs _ _ _ _ c hsvc

/-! ## Lemmas: action dispatch -/

lemma dispatchAction_trace (cfg : SchemaAgentConfig) (svc : Services)
    (a : Action) (st : SchemaAgentState) :
    (dispatchAction cfg svc a st).2.trace = st.trace := by
  unfold dispatchAction
  split_ifs <;> rfl

lemma dispatchAction_step (cfg : SchemaAgentConfig) (svc : Services)
    (a : Action) (st : SchemaAgentState) :
    (dispatchAction cfg svc a st).2.step = st.step := by
  unfold dispatchAction
  split_ifs <;> rfl

lemma dispatchAction_seen (cfg : SchemaAgentConfig) (svc : Services)
    (a : Action) (st : SchemaAgentState) :
    ∀ i ∈ st.seen_columns, i ∈ (dispatchAction cfg svc a st).2.seen_columns := by
  intro i hi
  unfold dispatchAction
  split_ifs <;> first
    | exact hi
    | exact foldl_addSeen_mono _ _ hi

lemma dispatchAction_pair (cfg : SchemaAgentConfig) (svc : Services)
    (a : Action) (st : SchemaAgentState) (t i : String)
    (h : pairIn st.linked_schema t i) :
    pairIn (dispatchAction cfg svc a st).2.linked_schema t i := by
  unfold dispatchAction
  split_ifs <;> first
    | exact h
    | exact merge_pair_mono _ h

lemma dispatchAction_not_warning (cfg : SchemaAgentConfig) (svc : Services)
    (a : Action) (st : SchemaAgentState) {o : Observation}
    (h : (dispatchAction cfg svc a st).1 = some o) : isWarningObs o = false := by
  unfold dispatchAction at h
  split_ifs at h <;>
    (simp only [Option.some.injEq] at h; subst h; rfl)

lemma dispatchAction_inv {P : ColumnSnippet → Prop} {cfg : SchemaAgentConfig}
    {svc : Services} {a : Action} {st : SchemaAgentState}
    (hs : svcProduces svc P) (h1 : linkedWF P st.linked_schema)
    (h2 : cacheP P st.retrieve_cache) :
    linkedWF P (dispatchAction cfg svc a st).2.linked_schema ∧
      cacheP P (dispatchAction cfg svc a st).2.retrieve_cache := by
  unfold dispatchAction
  split_ifs
  case pos =>
    refine ⟨h1, ?_⟩
    intro kv hkv c hc
    rcases List.mem_append.mp hkv with hold | hnew
    · exact h2 kv hold c hc
    · have : kv.2 = svc.searchColumns st.db_id (a.query.getD st.user_query)
          st.seen_columns (a.top_k.getD cfg.retrieve_top_k) := by
        rcases List.mem_singleton.mp hnew with rfl
        rfl
      rw [this] at hc
      exact hs _ _ _ _ c hc
  case pos => exact ⟨h1, h2⟩
  case pos => exact ⟨h1, h2⟩
  case pos => exact ⟨merge_WF _ (resolve_P h2 hs _) h1, h2⟩
  case pos => exact ⟨h1, h2⟩
  case neg => exact ⟨h1, h2⟩

/-! ## Lemmas: per-step action processing -/

lemma processActions_ok (cfg : SchemaAgentConfig) (svc : Services) :
    ∀ (actions : List Action) (st : SchemaAgentState) (obs : List Observation)
      (fb : Nat) (st' : SchemaAgentState),
      processActions cfg svc actions st = .ok (obs, fb, st') →
      st'.trace = st.trace ∧ st'.step = st.step ∧
      (∀ i ∈ st.seen_columns, i ∈ st'.seen_columns) ∧
      (∀ t i, pairIn st.linked_schema t i → pairIn st'.linked_schema t i) ∧
      (∀ o ∈ obs, isWarningObs o = false) ∧
      fb = actions.countP (fun a => (a.type.map isFeedbackType).getD false)
  | [], st, obs, fb, st', h => by
    simp only [processActions, Except.ok.injEq, Prod.mk.injEq] at h
    obtain ⟨h1, h2, h3⟩ := h
    subst h1; subst h2; subst h3
    exact ⟨rfl, rfl, fun i hi => hi, fun t i hp => hp, by simp, by simp⟩
  | a :: rest, st, obs, fb, st', h => by
    simp only [processActions] at h
    cases hty : a.type with
    | none => rw [hty] at h; cases h
    | some t =>
      rw [hty] at h
      cases hrec : processActions cfg svc rest (dispatchAction cfg svc a st).2 with
      | error e => rw [hrec] at h; cases h
      | ok triple =>
        obtain ⟨obs2, fb2, st2⟩ := triple
        rw [hrec] at h
        simp only [Except.ok.injEq, Prod.mk.injEq] at h
        obtain ⟨hobs, hfb, hst⟩ := h
        obtain ⟨iht, ihs, ihseen, ihpair, ihobs, ihfb⟩ :=
          processActions_ok cfg svc rest _ _ _ _ hrec
        subst hst
        refine ⟨?_, ?_, ?_, ?_, ?_, ?_⟩
        · rw [iht, dispatchAction_trace]
        · rw [ihs, dispatchAction_step]
        · exact fun i hi => ihseen i (dispatchAction_seen cfg svc a st i hi)
        · exact fun t2 i hp => ihpair t2 i (dispatchAction_pair cfg svc a st t2 i hp)
        · intro o ho
          rw [← hobs] at ho
          rcases List.mem_append.mp ho with h1 | h2
          · have : (dispatchAction cfg svc a st).1 = some o := by
              cases hop : (dispatchAction cfg svc a st).1 with
              | none => rw [hop] at h1; cases h1
              | some x =>
                rw [hop] at h1
                rcases List.mem_singleton.mp h1 with rfl
                rfl
            exact dispatchAction_not_warning cfg svc a st this
          · exact ihobs o h2
        · rw [← hfb, ihfb, List.countP_cons]
          simp [hty]
          omega

lemma processActions_inv {P : ColumnSnippet → Prop} {cfg : SchemaAgentConfig}
    {svc : Services} (hs : svcProduces svc P) :
    ∀ (actions : List Action) (st : SchemaAgentState) (obs : List Observation)
      (fb : Nat) (st' : SchemaAgentState),
      processActions cfg svc actions st = .ok (obs, fb, st') →
      linkedWF P st.linked_schema → cacheP P st.retrieve_cache →
      linkedWF P st'.linked_schema ∧ cacheP P st'.retrieve_cache
  | [], st, obs, fb, st', h, h1, h2 => by
    simp only [processActions, Except.ok.injEq, Prod.mk.injEq] at h
    obtain ⟨-, -, h3⟩ := h
    subst h3
    exact ⟨h1, h2⟩
  | a :: rest, st, obs, fb, st', h, h1, h2 => by
    simp only [processActions] at h
    cases hty : a.type with
    | none => rw [hty] at h; cases h
    | some t =>
      rw [hty] at h
      cases hrec : processActions cfg svc rest (dispatchAction cfg svc a st).2 with
      | error e => rw [hrec] at h; cases h
      | ok triple =>
        obtain ⟨obs2, fb2, st2⟩ := triple
        rw [hrec] at h
        simp only [Except.ok.injEq, Prod.mk.injEq] at h
        obtain ⟨-, -, hst⟩ := h
        subst hst
        obtain ⟨hd1, hd2⟩ := @dispatchAction_inv P cfg svc a st hs h1 h2
        exact processActions_inv hs rest _ _ _ _ hrec hd1 hd2

/-! ## Lemmas: the control loop -/

lemma runAux_ok_spec (cfg : SchemaAgentConfig) (svc : Services) :
    ∀ (fuel : Nat) (st : SchemaAgentState) (ctx ctx' : SchemaStateCtx)
      (st' : SchemaAgentState),
      runAux cfg svc fuel st ctx = .ok (ctx', st') →
      ∃ steps : List TraceStep,
        st'.trace = st.trace ++ steps ∧
        steps.length ≤ fuel ∧
        (∀ t ∈ steps, t.forced_stop = false) ∧
        ((∃ pre last, steps = pre ++ [last] ∧ hasStopAction last.llm_actions = true ∧
            (∀ t ∈ pre, hasStopAction t.llm_actions = false) ∧
            st'.step + 1 = st.step + steps.length)
         ∨ (steps.length = fuel ∧
            (∀ t ∈ steps, hasStopAction t.llm_actions = false) ∧
            st'.step = st.step + fuel)) ∧
        (steps = [] → ctx' = ctx) ∧
        (steps ≠ [] → ctx'.linking_trace = some (serializeTrace st'.trace))
  | 0, st, ctx, ctx', st', h => by
    simp only [runAux, Except.ok.injEq, Prod.mk.injEq] at h
    obtain ⟨h1, h2⟩ := h
    subst h1; subst h2
    exact ⟨[], by simp, by simp, by simp, Or.inr ⟨rfl, by simp, by simp⟩,
      fun _ => rfl, by simp⟩
  | fuel + 1, st, ctx, ctx', st', h => by
    simp only [runAux] at h
    cases hpa : processActions cfg svc (callLLM (svc.llmResponse st.step)) st with
    | error e => rw [hpa] at h; cases h
    | ok triple =>
      obtain ⟨obs, fb, st1⟩ := triple
      rw [hpa] at h
      obtain ⟨hte, hse, -, -, -, -⟩ := processActions_ok cfg svc _ _ _ _ _ hpa
      set actions := callLLM (svc.llmResponse st.step) with hact
      set T : TraceStep :=
        { step := st1.step
          llm_actions := actions
          observations :=
            if fb < cfg.min_feedback_actions_per_step
            then obs ++ [warningObservation] else obs } with hT
      set st2 : SchemaAgentState := { st1 with trace := st1.trace ++ [T] } with hst2
      set ctx2 : SchemaStateCtx :=
        { ctx with
          linking_trace := some (serializeTrace st2.trace)
          linked_schema := serializeLinkedSchema st2.linked_schema } with hctx2
      have hTf : T.forced_stop = false := rfl
      have hTa : T.llm_actions = actions := rfl
      have htr2 : st2.trace = st1.trace ++ [T] := rfl
      have hctxt : ctx2.linking_trace = some (serializeTrace st2.trace) := rfl
      by_cases hstop : hasStopAction actions = true
      · rw [hstop] at h
        simp only [if_true, Except.ok.injEq, Prod.mk.injEq] at h
        obtain ⟨hctx, hst⟩ := h
        subst hctx; subst hst
        refine ⟨[T], by rw [htr2, hte], by simp, ?_, ?_, by simp, fun _ => hctxt⟩
        · intro t ht
          rcases List.mem_singleton.mp ht with rfl
          exact hTf
        · refine Or.inl ⟨[], T, by simp, hTa ▸ hstop, by simp, ?_⟩
          have : st2.step = st1.step := rfl
          rw [this, hse]
          simp
      · rw [Bool.not_eq_true] at hstop
        rw [hstop] at h
        simp only [if_false, Bool.false_eq_true] at h
        set st3 : SchemaAgentState := { st2 with step := st2.step + 1 } with hst3
        have hst3s : st3.step = st1.step + 1 := rfl
        have hst3t : st3.trace = st1.trace ++ [T] := rfl
        obtain ⟨steps', htr', hlen', hforced', hbr', hemp', hnemp'⟩ :=
          runAux_ok_spec cfg svc fuel st3 ctx2 ctx' st' h
        refine ⟨T :: steps', ?_, ?_, ?_, ?_, by simp, ?_⟩
        · rw [htr', hst3t, hte]
          simp
        · simp only [List.length_cons]
          omega
        · intro t ht
          rcases List.mem_cons.mp ht with rfl | ht2
          · exact hTf
          · exact hforced' t ht2
        · rcases hbr' with ⟨pre', last, hsteps', hslast, hpre', hstep'⟩ |
            ⟨hlenf, hnost, hstep'⟩
          · refine Or.inl ⟨T :: pre', last, by rw [hsteps', List.cons_append],
              hslast, ?_, ?_⟩
            · intro t ht
              rcases List.mem_cons.mp ht with rfl | ht2
              · exact hTa ▸ hstop
              · exact hpre' t ht2
            · rw [hst3s, hse] at hstep'
              rw [hsteps'] at hstep' ⊢
              simp only [List.length_cons, List.length_append,
                List.length_singleton] at hstep' ⊢
              omega
          · refine Or.inr ⟨by simp [hlenf], ?_, ?_⟩
            · intro t ht
              rcases List.mem_cons.mp ht with rfl | ht2
              · exact hTa ▸ hstop
              · exact hnost t ht2
            · rw [hst3s, hse] at hstep'
              rw [hstep']
              omega
        · intro _
          by_cases he : steps' = []
          · have := hemp' he
            rw [this, hctxt, htr', he, List.append_nil]
          · exact hnemp' he

lemma runAux_inv {P : ColumnSnippet → Prop} {cfg : SchemaAgentConfig}
    {svc : Services} (hs : svcProduces svc P) :
    ∀ (fuel : Nat) (st : SchemaAgentState) (ctx ctx' : SchemaStateCtx)
      (st' : SchemaAgentState),
      runAux cfg svc fuel st ctx = .ok (ctx', st') →
      linkedWF P st.linked_schema → cacheP P st.retrieve_cache →
      linkedWF P st'.linked_schema ∧ cacheP P st'.retrieve_cache
  | 0, st, ctx, ctx', st', h, h1, h2 => by
    simp only [runAux, Except.ok.injEq, Prod.mk.injEq] at h
    obtain ⟨-, h3⟩ := h
    subst h3
    exact ⟨h1, h2⟩
  | fuel + 1, st, ctx, ctx', st', h, h1, h2 => by
    simp only [runAux] at h
    cases hpa : processActions cfg svc (callLLM (svc.llmResponse st.step)) st with
    | error e => rw [hpa] at h; cases h
    | ok triple =>
      obtain ⟨obs, fb, st1⟩ := triple
      rw [hpa] at h
      obtain ⟨hp1, hp2⟩ := processActions_inv hs _ _ _ _ _ hpa h1 h2
      by_cases hstop : hasStopAction (callLLM (svc.llmResponse st.step)) = true
      · rw [hstop] at h
        simp only [if_true, Except.ok.injEq, Prod.mk.injEq] at h
        obtain ⟨-, hst⟩ := h
        subst hst
        exact ⟨hp1, hp2⟩
      · rw [Bool.not_eq_true] at hstop
        rw [hstop] at h
        simp only [if_false, Bool.false_eq_true] at h
        exact runAux_inv hs fuel _ _ _ _ h hp1 hp2

lemma serializeTrace_eq (l : List TraceStep) : serializeTrace l = l := by
  have hfun : (fun t : TraceStep =>
      ({ step := t.step, llm_actions := t.llm_actions
         observations := t.observations, forced_stop := t.forced_stop } : TraceStep))
      = fun t => t := funext fun t => rfl
  rw [serializeTrace, hfun]
  exact List.map_id l

lemma markLastForced_append : ∀ (l : List TraceStep) (t : TraceStep),
    markLastForced (l ++ [t]) = l ++ [{ t with forced_stop := true }]
  | [], t => rfl
  | [x], t => rfl
  | x :: y :: ys, t => by
    show x :: markLastForced ((y :: ys) ++ [t]) = _
    rw [markLastForced_append (y :: ys) t]
    rfl

/-! ## Lemmas: the engine is insensitive to how an undecodable response is
produced (congruence in the services) -/

lemma resolveColumns_congr (svc svc2 : Services)
    (hs : svc.searchColumns = svc2.searchColumns) (st : SchemaAgentState)
    (names : List String) :
    resolveColumns svc st names = resolveColumns svc2 st names := by
  unfold resolveColumns
  rw [hs]

lemma dispatchAction_congr (cfg : SchemaAgentConfig) (svc svc2 : Services)
    (hs : svc.searchColumns = svc2.searchColumns)
    (hp : svc.execProbe = svc2.execProbe) (a : Action) (st : SchemaAgentState) :
    dispatchAction cfg svc a st = dispatchAction cfg svc2 a st := by
  unfold dispatchAction
  rw [hs, hp, resolveColumns_congr svc svc2 hs]

lemma processActions_congr (cfg : SchemaAgentConfig) (svc svc2 : Services)
    (hs : svc.searchColumns = svc2.searchColumns)
    (hp : svc.execProbe = svc2.execProbe) :
    ∀ (actions : List Action) (st : SchemaAgentState),
      processActions cfg svc actions st = processActions cfg svc2 actions st
  | [], _ => rfl
  | a :: rest, st => by
    simp only [processActions]
    rw [dispatchAction_congr cfg svc svc2 hs hp a st,
      processActions_congr cfg svc svc2 hs hp rest]

lemma runAux_congr (cfg : SchemaAgentConfig) (svc svc2 : Services)
    (hs : svc.searchColumns = svc2.searchColumns)
    (hp : svc.execProbe = svc2.execProbe)
    (hr : ∀ k, callLLM (svc.llmResponse k) = callLLM (svc2.llmResponse k)) :
    ∀ (fuel : Nat) (st : SchemaAgentState) (ctx : SchemaStateCtx),
      runAux cfg svc fuel st ctx = runAux cfg svc2 fuel st ctx
  | 0, _, _ => rfl
  | fuel + 1, st, ctx => by
    simp only [runAux]
    rw [hr st.step, processActions_congr cfg svc svc2 hs hp _ st]
    cases hpa : processActions cfg svc2 (callLLM (svc2.llmResponse st.step)) st with
    | error e => rfl
    | ok triple =>
      obtain ⟨obs, fb, st1⟩ := triple
      by_cases hstop : hasStopAction (callLLM (svc2.llmResponse st.step)) = true
      · rw [hstop]
        simp only [if_true]
      · rw [Bool.not_eq_true] at hstop
        rw [hstop]
        simp only [if_false, Bool.false_eq_true]
        exact runAux_congr cfg svc svc2 hs hp hr fuel _ _

lemma runSchemaAgent_congr (cfg : SchemaAgentConfig) (svc svc2 : Services)
    (hs : svc.searchColumns = svc2.searchColumns)
    (hp : svc.execProbe = svc2.execProbe)
    (hr : ∀ k, callLLM (svc.llmResponse k) = callLLM (svc2.llmResponse k))
    (uq db : String) (tl : List String) :
    runSchemaAgent cfg svc uq db tl = runSchemaAgent cfg svc2 uq db tl := by
  unfold runSchemaAgent seedCtx seedState
  rw [hs, runAux_congr cfg svc svc2 hs hp hr]

lemma runAux_step (cfg : SchemaAgentConfig) (svc : Services) (fuel : Nat)
    (st : SchemaAgentState) (ctx : SchemaStateCtx) (obs : List Observation)
    (fb : Nat) (st1 : SchemaAgentState)
    (hok : processActions cfg svc (callLLM (svc.llmResponse st.step)) st
      = .ok (obs, fb, st1)) :
    runAux cfg svc (fuel + 1) st ctx =
      if hasStopAction (callLLM (svc.llmResponse st.step))
      then .ok (afterStepCtx cfg (callLLM (svc.llmResponse st.step)) obs fb st1 ctx,
                afterStepState cfg (callLLM (svc.llmResponse st.step)) obs fb st1)
      else runAux cfg svc fuel
        { afterStepState cfg (callLLM (svc.llmResponse st.step)) obs fb st1 with
          step := (afterStepState cfg (callLLM (svc.llmResponse st.step)) obs fb st1).step + 1 }
        (afterStepCtx cfg (callLLM (svc.llmResponse st.step)) obs fb st1 ctx) := by
  simp only [runAux, hok]
  rfl

/-! ## Claim theorems -/

/-- C1: for every run with `maxSteps = N`, the trace produced by
`SchemaAgent.run` has length at most `N`; if the loop exits because the step
counter reached `N` without any step whose actions contain a `stop_action`,
then `forced_stop` is true on the last `TraceStep` and false on every other;
and if some step's actions contain a `stop_action`, the loop terminates at
that step (the stop is in the last recorded step) with `forced_stop` false on
every `TraceStep`. -/
theorem schema_run_termination (cfg : SchemaAgentConfig) (svc : Services)
    (uq db : String) (tl : List String) (c : SchemaStateCtx)
    (s : SchemaAgentState)
    (h : runSchemaAgent cfg svc uq db tl = .ok (c, s)) :
    s.trace.length ≤ cfg.max_steps ∧
    ((∀ t ∈ s.trace, hasStopAction t.llm_actions = false) →
      s.trace.length = cfg.max_steps ∧
      (∀ t ∈ s.trace.dropLast, t.forced_stop = false) ∧
      (∀ t, s.trace.getLast? = some t → t.forced_stop = true)) ∧
    ((∃ t ∈ s.trace, hasStopAction t.llm_actions = true) →
      (∀ t ∈ s.trace, t.forced_stop = false) ∧
      (∀ t, s.trace.getLast? = some t → hasStopAction t.llm_actions = true)) := by
  unfold runSchemaAgent at h
  cases hra : runAux cfg svc cfg.max_steps (seedState cfg svc uq db tl)
      (seedCtx cfg svc uq db tl) with
  | error e => rw [hra] at h; cases h
  | ok p =>
    obtain ⟨ctx1, st1⟩ := p
    rw [hra] at h
    replace h : (if cfg.max_steps ≤ st1.step ∧ st1.trace ≠ [] then
        Except.ok (ctx1, { st1 with trace := markLastForced st1.trace })
      else Except.ok (ctx1, st1)) = Except.ok (c, s) := h
    obtain ⟨steps, htr, hlen, hforced, hbr, -, -⟩ :=
      runAux_ok_spec cfg svc cfg.max_steps _ _ _ _ hra
    have htr0 : (seedState cfg svc uq db tl).trace = [] := rfl
    have hstp0 : (seedState cfg svc uq db tl).step = 0 := rfl
    rw [htr0, List.nil_append] at htr
    rw [hstp0] at hbr
    rcases hbr with ⟨pre, last, hsteps, hslast, hpre, hstep⟩ |
      ⟨hlenf, hnost, hstep⟩
    · have hlen2 : steps.length ≤ cfg.max_steps := hlen
      have hcond : ¬ (cfg.max_steps ≤ st1.step ∧ st1.trace ≠ []) := by
        rintro ⟨hle, -⟩
        omega
      rw [if_neg hcond] at h
      simp only [Except.ok.injEq, Prod.mk.injEq] at h
      obtain ⟨h1, h2⟩ := h
      subst h1; subst h2
      refine ⟨by rw [htr]; exact hlen, ?_, ?_⟩
      · intro hns
        exfalso
        have hlastmem : last ∈ st1.trace := by
          rw [htr, hsteps]; simp
        have := hns last hlastmem
        rw [hslast] at this
        cases this
      · intro _
        refine ⟨?_, ?_⟩
        · intro t ht
          exact hforced t (by rw [htr] at ht; exact ht)
        · intro t hlastq
          rw [htr, hsteps] at hlastq
          simp only [List.getLast?_concat, Option.some.injEq] at hlastq
          subst hlastq
          exact hslast
    · by_cases hN : steps = []
      · have hN0 : cfg.max_steps = 0 := by
          rw [hN] at hlenf; simpa using hlenf.symm
        have hcond : ¬ (cfg.max_steps ≤ st1.step ∧ st1.trace ≠ []) := by
          rintro ⟨-, hne⟩
          rw [htr, hN] at hne
          exact hne rfl
        rw [if_neg hcond] at h
        simp only [Except.ok.injEq, Prod.mk.injEq] at h
        obtain ⟨h1, h2⟩ := h
        subst h1; subst h2
        rw [htr, hN]
        exact ⟨by simp, fun _ => ⟨by simp [hN0], by simp, by simp⟩, by simp⟩
      · obtain ⟨init, lastt, hinit⟩ := (List.eq_nil_or_concat steps).resolve_left hN
        rw [List.concat_eq_append] at hinit
        have hcond : cfg.max_steps ≤ st1.step ∧ st1.trace ≠ [] := by
          constructor
          · omega
          · rw [htr]; exact hN
        rw [if_pos hcond] at h
        simp only [Except.ok.injEq, Prod.mk.injEq] at h
        obtain ⟨h1, h2⟩ := h
        subst h1; subst h2
        have hmtr : ({ st1 with trace := markLastForced st1.trace } :
            SchemaAgentState).trace = init ++ [{ lastt with forced_stop := true }] := by
          show markLastForced st1.trace = _
          rw [htr, hinit, markLastForced_append]
        have hlen3 : init.length + 1 = cfg.max_steps := by
          rw [hinit] at hlenf
          simpa using hlenf
        refine ⟨?_, fun _ => ⟨?_, ?_, ?_⟩, ?_⟩
        · rw [hmtr]; simp; omega
        · rw [hmtr]; simp; omega
        · rw [hmtr]
          simp only [List.dropLast_concat]
          intro t ht
          exact hforced t (by rw [hinit]; exact List.mem_append_left _ ht)
        · rw [hmtr]
          simp only [List.getLast?_concat, Option.some.injEq]
          rintro t rfl
          rfl
        · rintro ⟨t, ht, hstopt⟩
          exfalso
          rw [hmtr] at ht
          rcases List.mem_append.mp ht with h1 | h1
          · have := hnost t (by rw [hinit]; exact List.mem_append_left _ h1)
            rw [hstopt] at this; cases this
          · rcases List.mem_singleton.mp h1 with rfl
            have hlm : lastt ∈ steps := by rw [hinit]; simp
            have := hnost lastt hlm
            rw [show ({ lastt with forced_stop := true } :
                TraceStep).llm_actions = lastt.llm_actions from rfl] at hstopt
            rw [hstopt] at this
            cases this

/-- Witness for C1: a concrete two-step run that stops naturally has a trace
of length at most `max_steps = 2`. -/
theorem schema_run_termination_witness :
    (runPair { max_steps := 2 } stopAtOnceServices "q" "sales" []).2.trace.length ≤ 2 :=
  (schema_run_termination { max_steps := 2 } stopAtOnceServices "q" "sales" []
    (runPair { max_steps := 2 } stopAtOnceServices "q" "sales" []).1
    (runPair { max_steps := 2 } stopAtOnceServices "q" "sales" []).2 (by rfl)).1

/-- C2: a gateway response that fails to decode as JSON, or decodes to a
non-list value (`llmResponse _ = none` in the model), makes the engine behave
exactly as if it had received `[{"type":"stop_action"}]` (run-level equality
with the `stopFilled` gateway), and the loop iteration consuming it records a
`stop_action` observation, terminates the loop that same step, and returns
`.ok` rather than an error. -/
theorem parse_failure_acts_as_stop (cfg : SchemaAgentConfig) (svc : Services)
    (uq db : String) (tl : List String) (fuel : Nat) (st : SchemaAgentState)
    (ctx : SchemaStateCtx) (hresp : svc.llmResponse st.step = none) :
    runSchemaAgent cfg svc uq db tl = runSchemaAgent cfg (stopFilled svc) uq db tl ∧
    runAux cfg svc (fuel + 1) st ctx =
      .ok (afterStepCtx cfg [stopOnlyAction] [Observation.stop] 0 st ctx,
           afterStepState cfg [stopOnlyAction] [Observation.stop] 0 st) := by
  constructor
  · exact runSchemaAgent_congr cfg svc (stopFilled svc) rfl rfl (fun k => rfl) uq db tl
  · have hcall : callLLM (svc.llmResponse st.step) = [stopOnlyAction] := by
      rw [hresp]; rfl
    have hok : processActions cfg svc (callLLM (svc.llmResponse st.step)) st
        = .ok ([Observation.stop], 0, st) := by
      rw [hcall]; rfl
    rw [runAux_step cfg svc fuel st ctx _ _ _ hok, hcall]
    rfl

/-- Witness for C2 at a concrete one-step state. -/
theorem parse_failure_acts_as_stop_witness :
    runAux {} (stubServices (fun _ => none)) 1 c10State (default : SchemaStateCtx) =
      .ok (afterStepCtx {} [stopOnlyAction] [Observation.stop] 0 c10State (default : SchemaStateCtx),
           afterStepState {} [stopOnlyAction] [Observation.stop] 0 c10State) :=
  (parse_failure_acts_as_stop {} (stubServices (fun _ => none)) "q" "sales" []
    0 c10State (default : SchemaStateCtx) rfl).2

/-- C3 (code bug): `_dispatch_action` survives an action object without a
`"type"` key and produces the `unknown`-tagged observation echoing it, but the
control loop's feedback count (`action["type"]`, schema.py line 130) then
raises a `KeyError`, so a gateway answering the valid JSON list `[{}]` crashes
`SchemaAgent.run` instead of keeping the loop alive. -/
theorem typeless_action_crashes :
    (dispatchAction {} (stubServices typelessGateway) {} c10State).1 =
      some (Observation.unknown {}) ∧
    runSchemaAgent {} (stubServices typelessGateway) "q" "sales" [] =
      .error "KeyError: type" := by
  exact ⟨rfl, rfl⟩

/-- C9: for a run ending by budget exhaustion (no step's actions contain a
stop action, positive budget), every entry of the trace serialized into the
shared context (`schema_state["linking_trace"]`) has `forced_stop = false`,
while the final internal trace carries `forced_stop = true` on its last step:
the context is serialized before the post-loop mark and never re-serialized. -/
theorem ctx_trace_forced_stop_false (cfg : SchemaAgentConfig) (svc : Services)
    (uq db : String) (tl : List String) (c : SchemaStateCtx)
    (s : SchemaAgentState)
    (h : runSchemaAgent cfg svc uq db tl = .ok (c, s))
    (hns : ∀ t ∈ s.trace, hasStopAction t.llm_actions = false)
    (hpos : 0 < cfg.max_steps) :
    (∀ t ∈ c.linking_trace.getD [], t.forced_stop = false) ∧
    (∀ t, s.trace.getLast? = some t → t.forced_stop = true) := by
  unfold runSchemaAgent at h
  cases hra : runAux cfg svc cfg.max_steps (seedState cfg svc uq db tl)
      (seedCtx cfg svc uq db tl) with
  | error e => rw [hra] at h; cases h
  | ok p =>
    obtain ⟨ctx1, st1⟩ := p
    rw [hra] at h
    replace h : (if cfg.max_steps ≤ st1.step ∧ st1.trace ≠ [] then
        Except.ok (ctx1, { st1 with trace := markLastForced st1.trace })
      else Except.ok (ctx1, st1)) = Except.ok (c, s) := h
    obtain ⟨steps, htr, hlen, hforced, hbr, -, hnemp⟩ :=
      runAux_ok_spec cfg svc cfg.max_steps _ _ _ _ hra
    have htr0 : (seedState cfg svc uq db tl).trace = [] := rfl
    have hstp0 : (seedState cfg svc uq db tl).step = 0 := rfl
    rw [htr0, List.nil_append] at htr
    rw [hstp0] at hbr
    rcases hbr with ⟨pre, last, hsteps, hslast, hpre, hstep⟩ |
      ⟨hlenf, hnost, hstep⟩
    · exfalso
      have hcond : ¬ (cfg.max_steps ≤ st1.step ∧ st1.trace ≠ []) := by
        rintro ⟨hle, -⟩
        omega
      rw [if_neg hcond] at h
      simp only [Except.ok.injEq, Prod.mk.injEq] at h
      obtain ⟨h1, h2⟩ := h
      subst h1; subst h2
      have hlastmem : last ∈ st1.trace := by rw [htr, hsteps]; simp
      have := hns last hlastmem
      rw [hslast] at this
      cases this
    · have hN : steps ≠ [] := by
        intro he
        rw [he] at hlenf
        simp at hlenf
        omega
      obtain ⟨init, lastt, hinit⟩ := (List.eq_nil_or_concat steps).resolve_left hN
      rw [List.concat_eq_append] at hinit
      have hcond : cfg.max_steps ≤ st1.step ∧ st1.trace ≠ [] := by
        constructor
        · omega
        · rw [htr]; exact hN
      rw [if_pos hcond] at h
      simp only [Except.ok.injEq, Prod.mk.injEq] at h
      obtain ⟨h1, h2⟩ := h
      subst h1; subst h2
      constructor
      · have hct : ctx1.linking_trace = some (serializeTrace st1.trace) := hnemp hN
        rw [hct, serializeTrace_eq, htr]
        intro t ht
        exact hforced t (by simpa using ht)
      · intro t hlastq
        have hmtr : ({ st1 with trace := markLastForced st1.trace } :
            SchemaAgentState).trace = init ++ [{ lastt with forced_stop := true }] := by
          show markLastForced st1.trace = _
          rw [htr, hinit, markLastForced_append]
        rw [hmtr] at hlastq
        simp only [List.getLast?_concat, Option.some.injEq] at hlastq
        subst hlastq
        rfl

/-- Witness for C9: a concrete two-step budget-exhausted run. -/
theorem ctx_trace_forced_stop_false_witness :
    (∀ t ∈ ((runPair { max_steps := 2 } retrieveForeverServices "q" "sales" []).1.linking_trace.getD []), t.forced_stop = false) ∧
    (∀ t, ((runPair { max_steps := 2 } retrieveForeverServices "q" "sales" []).2.trace.getLast?) = some t → t.forced_stop = true) :=
  ctx_trace_forced_stop_false { max_steps := 2 } retrieveForeverServices
    "q" "sales" []
    (runPair { max_steps := 2 } retrieveForeverServices "q" "sales" []).1
    (runPair { max_steps := 2 } retrieveForeverServices "q" "sales" []).2
    (by rfl) (by decide) (by decide)

/-- C4: across one step (the processing of one action list), `seen_columns`
and the set of (table, identity) pairs in the linked schema grow
monotonically, and the schema merge only appends descriptors that are absent
by identity (existing columns form a prefix of the merged columns, and the
appended ones are pairwise distinct and disjoint from those already there). -/
theorem step_monotonic_growth (cfg : SchemaAgentConfig) (svc : Services)
    (actions : List Action) (st : SchemaAgentState) (obs : List Observation)
    (fb : Nat) (s : SchemaAgentState)
    (h : processActions cfg svc actions st = .ok (obs, fb, s)) :
    (∀ i ∈ st.seen_columns, i ∈ s.seen_columns) ∧
    (∀ t i, pairIn st.linked_schema t i → pairIn s.linked_schema t i) ∧
    (∀ (sch : List TableSchema) (cols : List ColumnSnippet) (t : String),
      ∃ extra, colsOf (mergeSchema sch cols) t = colsOf sch t ++ extra ∧
        ((extra.map ColumnSnippet.id).Nodup) ∧
        (∀ i ∈ extra.map ColumnSnippet.id, i ∉ (colsOf sch t).map ColumnSnippet.id) ∧
        (∀ x ∈ extra, x ∈ cols)) := by
  obtain ⟨-, -, hseen, hpair, -, -⟩ := processActions_ok cfg svc _ _ _ _ _ h
  refine ⟨hseen, hpair, ?_⟩
  intro sch cols t
  obtain ⟨extra, he, hnd, hdisj, hmem⟩ := merge_extra cols sch t
  exact ⟨extra, he, hnd, hdisj, fun x hx => (hmem x hx).1⟩

/-- Witness for C4: a concrete retrieval step preserves the seen set. -/
theorem step_monotonic_growth_witness :
    "orders.total_amount" ∈ (procTriple {} stopAtOnceServices
      [{ type := some "retrieve_schema" }] c10State).2.2.seen_columns :=
  (step_monotonic_growth {} stopAtOnceServices
    [{ type := some "retrieve_schema" }] c10State
    (procTriple {} stopAtOnceServices [{ type := some "retrieve_schema" }] c10State).1
    (procTriple {} stopAtOnceServices [{ type := some "retrieve_schema" }] c10State).2.1
    (procTriple {} stopAtOnceServices [{ type := some "retrieve_schema" }] c10State).2.2
    (by rfl)).1 "orders.total_amount" (by decide)

/-- Counterexample to C5 as stated: a run whose seed retrieval returns the
same column twice ends step 1 with the `orders` table holding two descriptors
of the same identity — `build_schema_from_columns` performs no deduplication. -/
theorem dedup_invariant_counterexample :
    (colsOf dupRunSchema "orders").map ColumnSnippet.id =
      ["orders.order_id", "orders.order_id"] ∧
    ¬ (((colsOf dupRunSchema "orders").map ColumnSnippet.id).Nodup) := by
  constructor
  · rfl
  · decide

/-- C5 (amended): provided the seed retrieval returns pairwise-distinct
identities, then at the end of every run no table entry contains two
descriptors with the same identity, every descriptor is stored under its own
table name, and — whenever the store only produces dot-free table names — a
column identity appears in at most one table's collection. -/
theorem dedup_invariant_amended (cfg : SchemaAgentConfig) (svc : Services)
    (uq db : String) (tl : List String) (c : SchemaStateCtx)
    (s : SchemaAgentState)
    (h : runSchemaAgent cfg svc uq db tl = .ok (c, s))
    (hseed : ((svc.searchColumns db uq [] cfg.initial_top_m).map
      ColumnSnippet.id).Nodup) :
    (∀ ts ∈ s.linked_schema, ((ts.columns.map ColumnSnippet.id).Nodup)) ∧
    (∀ ts ∈ s.linked_schema, ∀ x ∈ ts.columns, x.table = ts.table) ∧
    (svcProduces svc (fun x => dotFree x.table) →
      ∀ ts1 ∈ s.linked_schema, ∀ ts2 ∈ s.linked_schema,
        ∀ c1 ∈ ts1.columns, ∀ c2 ∈ ts2.columns,
          c1.id = c2.id → ts1.table = ts2.table) := by
  unfold runSchemaAgent at h
  cases hra : runAux cfg svc cfg.max_steps (seedState cfg svc uq db tl)
      (seedCtx cfg svc uq db tl) with
  | error e => rw [hra] at h; cases h
  | ok p =>
    obtain ⟨ctx1, st1⟩ := p
    rw [hra] at h
    replace h : (if cfg.max_steps ≤ st1.step ∧ st1.trace ≠ [] then
        Except.ok (ctx1, { st1 with trace := markLastForced st1.trace })
      else Except.ok (ctx1, st1)) = Except.ok (c, s) := h
    have hls : s.linked_schema = st1.linked_schema := by
      by_cases hcond : cfg.max_steps ≤ st1.step ∧ st1.trace ≠ []
      · rw [if_pos hcond] at h
        simp only [Except.ok.injEq, Prod.mk.injEq] at h
        rw [← h.2]
      · rw [if_neg hcond] at h
        simp only [Except.ok.injEq, Prod.mk.injEq] at h
        rw [← h.2]
    have hcache0 : cacheP (fun _ => True) (seedState cfg svc uq db tl).retrieve_cache :=
      fun kv hkv => absurd hkv (List.not_mem_nil _)
    have hseedWF : linkedWF (fun _ => True)
        (seedState cfg svc uq db tl).linked_schema :=
      build_WF _ hseed (fun _ _ => trivial)
    obtain ⟨hWF, -⟩ := @runAux_inv (fun _ => True) cfg svc
      (fun _ _ _ _ _ _ => trivial) cfg.max_steps _ _ _ _ hra hseedWF hcache0
    refine ⟨?_, ?_, ?_⟩
    · intro ts hts
      rw [hls] at hts
      have := mem_colsOf hWF.1 hts
      have hnd := (hWF.2 ts.table).1
      rw [this] at hnd
      exact hnd
    · intro ts hts x hx
      rw [hls] at hts
      have hcols := mem_colsOf hWF.1 hts
      exact ((hWF.2 ts.table).2 x (by rw [hcols]; exact hx)).1
    · intro hdot ts1 hts1 ts2 hts2 c1 hc1 c2 hc2 hid
      rw [hls] at hts1 hts2
      have hcache1 : cacheP (fun x => dotFree x.table)
          (seedState cfg svc uq db tl).retrieve_cache :=
        fun kv hkv => absurd hkv (List.not_mem_nil _)
      have hseedWF1 : linkedWF (fun x => dotFree x.table)
          (seedState cfg svc uq db tl).linked_schema :=
        build_WF _ hseed (fun x hx => hdot _ _ _ _ x hx)
      obtain ⟨hWF1, -⟩ := @runAux_inv (fun x => dotFree x.table) cfg svc
        hdot cfg.max_steps _ _ _ _ hra hseedWF1 hcache1
      have hm1 := mem_colsOf hWF1.1 hts1
      have hm2 := mem_colsOf hWF1.1 hts2
      obtain ⟨ht1, hd1⟩ := (hWF1.2 ts1.table).2 c1 (by rw [hm1]; exact hc1)
      obtain ⟨ht2, hd2⟩ := (hWF1.2 ts2.table).2 c2 (by rw [hm2]; exact hc2)
      rw [← ht1, ← ht2]
      exact id_table_eq hid hd1 hd2

/-- Witness for C5 (amended): the stub store's six-column schema has distinct
seed identities, and a concrete run keeps every table duplicate-free. -/
theorem dedup_invariant_amended_witness :
    ((((runPair { max_steps := 1 } stopAtOnceServices "q" "sales" []).2.linked_schema.headD
      { table := "orders" }).columns.map ColumnSnippet.id).Nodup) :=
  (dedup_invariant_amended { max_steps := 1 } stopAtOnceServices "q" "sales" []
    (runPair { max_steps := 1 } stopAtOnceServices "q" "sales" []).1
    (runPair { max_steps := 1 } stopAtOnceServices "q" "sales" []).2
    (by rfl) (by decide)).1
    ((runPair { max_steps := 1 } stopAtOnceServices "q" "sales" []).2.linked_schema.headD
      { table := "orders" }) (by decide)

/-- C6: an `add_schema` action resolves each requested identifier first by
exact identity match against the union of all cached retrieval results, then
by a fallback single-result retrieval with the table/column text as query
(`resolveOne` is the spec-worded rule, and the source `resolveColumns` equals
the identifier-wise resolution by it); every resolved descriptor is merged
into the linked schema and its identity added to `seen_columns`; identifiers
resolved by neither route contribute nothing — the action still dispatches to
a `some` observation whose `added` list is exactly the resolved identities. -/
theorem add_schema_resolution (cfg : SchemaAgentConfig) (svc : Services)
    (st : SchemaAgentState) (a : Action) (names : List String)
    (ha : a.type = some "add_schema") (hc : a.columns = some names) :
    resolveColumns svc st names = names.filterMap (resolveOne svc st) ∧
    (dispatchAction cfg svc a st).1 =
      some (Observation.add
        ((names.filterMap (resolveOne svc st)).map ColumnSnippet.id)) ∧
    (dispatchAction cfg svc a st).2.linked_schema =
      mergeSchema st.linked_schema (names.filterMap (resolveOne svc st)) ∧
    (∀ x ∈ names.filterMap (resolveOne svc st),
      pairIn (dispatchAction cfg svc a st).2.linked_schema x.table x.id) ∧
    (∀ x ∈ names.filterMap (resolveOne svc st),
      x.id ∈ (dispatchAction cfg svc a st).2.seen_columns) := by
  refine ⟨resolveColumns_eq svc st names, ?_, ?_, ?_, ?_⟩
  · simp [dispatchAction, ha, hc, resolveColumns_eq]
  · simp [dispatchAction, ha, hc, resolveColumns_eq]
  · intro x hx
    have hd : (dispatchAction cfg svc a st).2.linked_schema =
        mergeSchema st.linked_schema (names.filterMap (resolveOne svc st)) := by
      simp [dispatchAction, ha, hc, resolveColumns_eq]
    rw [hd]
    exact merge_mem _ _ hx
  · intro x hx
    have hd : (dispatchAction cfg svc a st).2.seen_columns =
        ((names.filterMap (resolveOne svc st)).map ColumnSnippet.id).foldl
          addSeen st.seen_columns := by
      simp [dispatchAction, ha, hc, resolveColumns_eq]
    rw [hd]
    exact foldl_addSeen_mem _ _ (List.mem_map_of_mem _ hx)

/-- Witness for C6 at a concrete add request against the stub store. -/
theorem add_schema_resolution_witness :
    (dispatchAction {} stopAtOnceServices
      { type := some "add_schema", columns := some ["orders.order_id"] }
      c10State).1 =
      some (Observation.add
        ((["orders.order_id"].filterMap (resolveOne stopAtOnceServices c10State)).map
          ColumnSnippet.id)) :=
  (add_schema_resolution {} stopAtOnceServices c10State
    { type := some "add_schema", columns := some ["orders.order_id"] }
    ["orders.order_id"] rfl rfl).2.1

/-- C7: per step, the feedback count is the number of proposed actions typed
`retrieve_schema`/`explore_schema`/`verify_schema`; exactly one synthetic
warning observation is appended when that count is below the configured
minimum and none otherwise; and the loop proceeds normally either way (the
step never errors: it either stops on a stop action or recurses). -/
theorem feedback_floor (cfg : SchemaAgentConfig) (svc : Services) (fuel : Nat)
    (st : SchemaAgentState) (ctx : SchemaStateCtx) (obs : List Observation)
    (fb : Nat) (st1 : SchemaAgentState)
    (hok : processActions cfg svc (callLLM (svc.llmResponse st.step)) st
      = .ok (obs, fb, st1)) :
    fb = (callLLM (svc.llmResponse st.step)).countP
        (fun a => (a.type.map isFeedbackType).getD false) ∧
    (stepTraceRecord cfg (callLLM (svc.llmResponse st.step)) obs fb st1).observations.countP
        isWarningObs
      = (if fb < cfg.min_feedback_actions_per_step then 1 else 0) ∧
    runAux cfg svc (fuel + 1) st ctx =
      (if hasStopAction (callLLM (svc.llmResponse st.step))
       then .ok (afterStepCtx cfg (callLLM (svc.llmResponse st.step)) obs fb st1 ctx,
                 afterStepState cfg (callLLM (svc.llmResponse st.step)) obs fb st1)
       else runAux cfg svc fuel
        { afterStepState cfg (callLLM (svc.llmResponse st.step)) obs fb st1 with
          step := (afterStepState cfg (callLLM (svc.llmResponse st.step)) obs fb st1).step + 1 }
        (afterStepCtx cfg (callLLM (svc.llmResponse st.step)) obs fb st1 ctx)) := by
  obtain ⟨-, -, -, -, hnw, hfb⟩ := processActions_ok cfg svc _ _ _ _ _ hok
  refine ⟨hfb, ?_, runAux_step cfg svc fuel st ctx obs fb st1 hok⟩
  have hzero : obs.countP isWarningObs = 0 :=
    List.countP_eq_zero.mpr (fun o ho => by rw [hnw o ho]; simp)
  show (if fb < cfg.min_feedback_actions_per_step then obs ++ [warningObservation]
    else obs).countP isWarningObs = _
  by_cases hlt : fb < cfg.min_feedback_actions_per_step
  · rw [if_pos hlt, if_pos hlt, List.countP_append, hzero]
    rfl
  · rw [if_neg hlt, if_neg hlt, hzero]

/-- Witness for C7: a concrete step proposing only a stop action (zero
feedback actions) gets exactly one warning observation. -/
theorem feedback_floor_witness :
    (stepTraceRecord {} [stopOnlyAction]
      (procTriple {} stopAtOnceServices [stopOnlyAction] c10State).1
      (procTriple {} stopAtOnceServices [stopOnlyAction] c10State).2.1
      (procTriple {} stopAtOnceServices [stopOnlyAction] c10State).2.2).observations.countP
        isWarningObs
      = (if (procTriple {} stopAtOnceServices [stopOnlyAction] c10State).2.1 <
          ({} : SchemaAgentConfig).min_feedback_actions_per_step then 1 else 0) :=
  (feedback_floor {} { stopAtOnceServices with llmResponse := fun _ => some [stopOnlyAction] }
    0 c10State default
    (procTriple {} stopAtOnceServices [stopOnlyAction] c10State).1
    (procTriple {} stopAtOnceServices [stopOnlyAction] c10State).2.1
    (procTriple {} stopAtOnceServices [stopOnlyAction] c10State).2.2
    (by rfl)).2.1

/-- Counterexample to C8 as stated: `"insert into orders select 1"` is not a
read-only statement (the Snowflake classifier itself rejects it), yet the stub
probe service returns status `"ok"` for it, because it only checks for the
substring `"select"`. -/
theorem exec_probe_counterexample :
    isSelectStatement "insert into orders select 1" = false ∧
    wordOccurs "insert" "insert into orders select 1" = true ∧
    (stubExecProbe "insert into orders select 1" 5).status = "ok" :=
  ⟨by decide, by decide, by decide⟩

/-- C8 (amended): every probe implementation returns status `"ok"` or
`"error"` and caps `sample_rows` at `rowLimit`; the Snowflake service's
admission gate returns an error result for every statement failing
`_is_select` (non-SELECT-prefixed or containing a forbidden keyword) before
executing anything; the stub and Spider-snow services never execute the SQL
(the stub accepts any text containing `"select"`). -/
theorem exec_probe_amended :
    (∀ (sql : String) (k : Nat),
      ((stubExecProbe sql k).status = "ok" ∨ (stubExecProbe sql k).status = "error") ∧
      (stubExecProbe sql k).sample_rows.length ≤ k) ∧
    (∀ (m : String → String → Option TableMeta) (db sql : String) (k : Nat),
      ((snowExecProbe m db sql k).status = "ok" ∨
        (snowExecProbe m db sql k).status = "error") ∧
      (snowExecProbe m db sql k).sample_rows.length ≤ k) ∧
    (∀ (b : Bool) (sql : String), isSelectStatement sql = false →
      (snowflakeGateResult b sql).map ProbeResult.status = some "error") := by
  refine ⟨?_, ?_, ?_⟩
  · intro sql k
    unfold stubExecProbe
    split
    · exact ⟨Or.inl rfl, List.length_take_le _ _⟩
    · exact ⟨Or.inr rfl, Nat.zero_le k⟩
  · intro m db sql k
    cases hx : extractTable sql with
    | none =>
      refine ⟨Or.inr ?_, ?_⟩ <;> simp [snowExecProbe, hx]
    | some t =>
      cases hm : m db t with
      | none =>
        refine ⟨Or.inr ?_, ?_⟩ <;> simp [snowExecProbe, hx, hm]
      | some meta =>
        refine ⟨Or.inl ?_, ?_⟩
        · simp [snowExecProbe, hx, hm]
        · simp only [snowExecProbe, hx, hm]
          exact List.length_take_le _ _
  · intro b sql hsel
    cases b
    · rfl
    · unfold snowflakeGateResult
      simp [hsel]

/-- Witness for C8 (amended): a DROP statement is gated out with an error
result by the Snowflake probe. -/
theorem exec_probe_amended_witness :
    (snowflakeGateResult true "DROP TABLE t").map ProbeResult.status = some "error" :=
  exec_probe_amended.2.2 true "DROP TABLE t" rfl

/-- C10: the fallback resolution of an `add_schema` identifier that is absent
from the retrieval cache takes the top hit of a retrieval that EXCLUDES every
seen identity and never compares the hit's identity with the request — so (a)
concretely, requesting `orders.total_amount` against the stub store with that
identity already seen resolves to the different column `orders.order_id`, and
(b) in general, for any store honoring its exclusion list, a requested column
already in `seen_columns` but absent from the cache can never be resolved to
itself. -/
theorem fallback_misresolution (svc : Services) (st : SchemaAgentState)
    (n : String) (h1 : honorsExclude svc)
    (h2 : cacheLookup st.retrieve_cache n = none) (h3 : n ∈ st.seen_columns) :
    (∀ x ∈ resolveColumns svc st [n], x.id ≠ n) ∧
    (resolveColumns stopAtOnceServices c10State ["orders.total_amount"]
        = [{ table := "orders", name := "order_id", type := "INT", is_pk := true }] ∧
      ({ table := "orders", name := "order_id", type := "INT", is_pk := true } :
        ColumnSnippet).id ≠ "orders.total_amount") := by
  refine ⟨?_, by rfl, by decide⟩
  intro x hx
  rw [resolveColumns_eq] at hx
  obtain ⟨m, hm, hr⟩ := List.mem_filterMap.mp hx
  rcases List.mem_singleton.mp hm with rfl
  unfold resolveOne at hr
  rw [h2] at hr
  have hmem : x ∈ svc.searchColumns st.db_id (fallbackQuery m) st.seen_columns 1 := by
    cases hf : svc.searchColumns st.db_id (fallbackQuery m) st.seen_columns 1 with
    | nil => rw [hf] at hr; cases hr
    | cons hit rest =>
      rw [hf] at hr
      simp only [List.head?_cons, Option.some.injEq] at hr
      subst hr
      exact List.mem_cons_self hit rest
  have hnotseen := h1 _ _ _ _ x hmem
  intro hxe
  rw [hxe] at hnotseen
  exact hnotseen h3

/-- The stub vector store honors its exclusion list. -/
lemma stubServices_honorsExclude (g : Nat → Option (List Action)) :
    honorsExclude (stubServices g) := by
  intro db q ex k x hx
  have hx2 : x ∈ (stubMockSchema db).filter (fun y => !(ex.contains y.id)) :=
    List.mem_of_mem_take hx
  have := (List.mem_filter.mp hx2).2
  simpa using this

/-- Witness for C10: concrete instantiation against the stub store — the
fallback hit for `orders.total_amount` is not `orders.total_amount`. -/
theorem fallback_misresolution_witness :
    ({ table := "orders", name := "order_id", type := "INT", is_pk := true } :
      ColumnSnippet).id ≠ "orders.total_amount" :=
  (fallback_misresolution stopAtOnceServices c10State "orders.total_amount"
    (stubServices_honorsExclude _) rfl (by decide)).1
    { table := "orders", name := "order_id", type := "INT", is_pk := true }
    (by decide)

end NL2SQL
